import Mathlib

/-
Verification development for the gbchess Rust sources.

This file shallowly embeds the move-generation and board-mutation kernel of
the repository (crates fen, square_set, moves_table, magic, moves, moves_gen,
perft) into Lean and proves or refutes the specification claims about it.

Conventions of the embedding:
  * machine integers (u64, u8, u16, usize) become Nat, with explicit masking
    (% 2^64 etc.) exactly where Rust wrapping or truncation matters;
  * a Square is a Nat in 0..63; out-of-range constructions that would panic
    in Rust (assert in Square::make_square) yield the junk value 64, which is
    never reached on the executions the theorems are about;
  * a Board (Rust: [Piece; 64]) is a function Nat -> Piece; reads beyond
    index 63 never occur on the inputs considered;
  * a SquareSet (Rust: u64 bitset) is a Nat < 2^64;
  * Rust functions taking &mut are turned into explicit state passing.
-/

/-! # fen/src/types.rs -/

inductive Color where
  | White
  | Black
deriving DecidableEq, Repr

/-- Rust `impl Not for Color`. -/
def Color.flip : Color → Color
  | .White => .Black
  | .Black => .White

inductive PieceType where
  | Pawn
  | Knight
  | Bishop
  | Rook
  | Queen
  | King
  | Empty
deriving DecidableEq, Repr

/-- Rust `enum Piece`: six white pieces, Empty, six black pieces (this order). -/
inductive Piece where
  | P
  | N
  | B
  | R
  | Q
  | K
  | Empty
  | p
  | n
  | b
  | r
  | q
  | k
deriving DecidableEq, Repr

/-- Rust `Piece::index` (the enum discriminant). -/
def Piece.index : Piece → Nat
  | .P => 0
  | .N => 1
  | .B => 2
  | .R => 3
  | .Q => 4
  | .K => 5
  | .Empty => 6
  | .p => 7
  | .n => 8
  | .b => 9
  | .r => 10
  | .q => 11
  | .k => 12

/-- Rust `Piece::from_index`; an index above 12 panics in Rust, the junk
result `Empty` here is never reached on the executions considered. -/
def Piece.from_index : Nat → Piece
  | 0 => .P
  | 1 => .N
  | 2 => .B
  | 3 => .R
  | 4 => .Q
  | 5 => .K
  | 6 => .Empty
  | 7 => .p
  | 8 => .n
  | 9 => .b
  | 10 => .r
  | 11 => .q
  | 12 => .k
  | _ => .Empty

/-- Rust `Piece::color`; `Empty` is unreachable in Rust, junk `White` here. -/
def Piece.color : Piece → Color
  | .P | .N | .B | .R | .Q | .K => .White
  | _ => .Black

/-- Rust `Piece::piece_type`. -/
def Piece.piece_type : Piece → PieceType
  | .P | .p => .Pawn
  | .N | .n => .Knight
  | .B | .b => .Bishop
  | .R | .r => .Rook
  | .Q | .q => .Queen
  | .K | .k => .King
  | .Empty => .Empty

/-- Rust `Piece::from_type_and_color`. -/
def Piece.from_type_and_color : PieceType → Color → Piece
  | .Pawn, .White => .P
  | .Knight, .White => .N
  | .Bishop, .White => .B
  | .Rook, .White => .R
  | .Queen, .White => .Q
  | .King, .White => .K
  | .Pawn, .Black => .p
  | .Knight, .Black => .n
  | .Bishop, .Black => .b
  | .Rook, .Black => .r
  | .Queen, .Black => .q
  | .King, .Black => .k
  | .Empty, _ => .Empty

/-- Rust `Piece::to_char`. -/
def Piece.to_char : Piece → Char
  | .P => 'P'
  | .N => 'N'
  | .B => 'B'
  | .R => 'R'
  | .Q => 'Q'
  | .K => 'K'
  | .p => 'p'
  | .n => 'n'
  | .b => 'b'
  | .r => 'r'
  | .q => 'q'
  | .k => 'k'
  | .Empty => '.'

/-- Rust `Piece::from_char` (FEN letters; space and dot give Empty). -/
def Piece.from_char (c : Char) : Option Piece :=
  if c = 'P' then some .P
  else if c = 'N' then some .N
  else if c = 'B' then some .B
  else if c = 'R' then some .R
  else if c = 'Q' then some .Q
  else if c = 'K' then some .K
  else if c = 'p' then some .p
  else if c = 'n' then some .n
  else if c = 'b' then some .b
  else if c = 'r' then some .r
  else if c = 'q' then some .q
  else if c = 'k' then some .k
  else if c = ' ' ∨ c = '.' then some .Empty
  else none

/- A square is a board index Nat in 0..63 (A1 = 0, H8 = 63); plain Nat is
used in all signatures (an abbreviation would obscure goals for tactics). -/

/-- Rust `Square::make_square`; the assert on out-of-range file or rank is
modelled by the junk square 64, never reached on the executions considered. -/
def make_square (file rank : Nat) : Nat :=
  if file < 8 ∧ rank < 8 then rank * 8 + file else 64

/-- Rust `Square::rank`. -/
def squareRank (s : Nat) : Nat := s / 8

/-- Rust `Square::file`. -/
def squareFile (s : Nat) : Nat := s % 8

/-! # fen/src/board.rs -/

/-- Rust `Board` is `[Piece; 64]`; embedded as a function from square index. -/
abbrev Board := Nat → Piece

def Board.new : Board := fun _ => .Empty

/-- Writing one square of the board (Rust `board[square] = piece`). -/
def boardSet (bd : Board) (sq : Nat) (piece : Piece) : Board :=
  fun s => if s = sq then piece else bd s

/-- Rust `NO_EN_PASSANT_TARGET` is `Square::A1`. -/
def NO_EN_PASSANT_TARGET : Nat := 0

/-- Rust `CastlingMask` is a 4-bit flag set; embedded as a Nat in 0..15.
The named constants follow board.rs. -/
def cmK : Nat := 1
def cmQ : Nat := 2
def cmk : Nat := 4
def cmq : Nat := 8
def cmKQ : Nat := 3
def cmkq : Nat := 12
def cmAll : Nat := 15

/-- Rust `impl Not for CastlingMask`: invert only the lower 4 bits. -/
def cmNot (m : Nat) : Nat := m ^^^ 15

/-- Rust `Turn`: active color, castling rights, en-passant target square
(A1 = none sentinel), halfmove clock (u8), fullmove number (u16). -/
structure Turn where
  active_color : Color
  castling : Nat
  en_passant : Nat
  halfmove : Nat
  fullmove : Nat
deriving DecidableEq, Repr

/-- Rust `Turn::tick`: increment halfmove clock (u8 wrap), switch sides,
increment fullmove number (u16 wrap) when the new active color is White. -/
def Turn.tick (t : Turn) : Turn :=
  let halfmove := (t.halfmove + 1) % 256
  let active := t.active_color.flip
  let fullmove := if active = Color.White then (t.fullmove + 1) % 65536 else t.fullmove
  { t with halfmove := halfmove, active_color := active, fullmove := fullmove }

def Turn.initial : Turn :=
  { active_color := .White, castling := cmAll, en_passant := NO_EN_PASSANT_TARGET
    halfmove := 0, fullmove := 1 }

/-- Rust `Position`. -/
structure Position where
  board : Board
  turn : Turn

/-! # square_set/src/square_set.rs

A SquareSet wraps a u64; embedded as a Nat kept below 2^64. -/

def U64_MOD : Nat := 18446744073709551616

def U64_MASK : Nat := 18446744073709551615

/-- Rust `SquareSet::from_square` (`1u64 << square`); masked like the u64. -/
def ssFromSquare (s : Nat) : Nat := (1 <<< s) &&& U64_MASK

/-- Rust `SquareSet::rank`. -/
def ssRank (r : Nat) : Nat := 0xff <<< (r * 8)

/-- Rust `SquareSet::file`. -/
def ssFile (f : Nat) : Nat := 0x0101010101010101 <<< f

/-- Rust `SquareSet::contains`. -/
def ssContains (set : Nat) (s : Nat) : Bool := Nat.testBit set s

/-- Rust u64 complement (`!bits`), restricted to 64 bits. -/
def ssNot (set : Nat) : Nat := set ^^^ U64_MASK

/-- The squares of a set in ascending order; this is the order of
`SquareSetIter`, which repeatedly takes the lowest set bit. -/
def squaresOf (set : Nat) : List Nat :=
  (List.range 64).filter (fun s => Nat.testBit set s)

/-- Loop body of Rust `SquareSet::make_path`: walk from the square after
`from` toward `to`, collecting squares strictly before `to`.  The walk takes
at most 7 steps on the inputs that reach it, so fuel 8 is exact. -/
def pathLoop : Nat → Int → Int → Int → Int → Int → Int → Nat → Nat
  | 0, _, _, _, _, _, _, acc => acc
  | fuel + 1, cr, cf, tr, tf, sr, sf, acc =>
    if cr = tr ∧ cf = tf then acc
    else
      let acc := if 0 ≤ cr ∧ cr < 8 ∧ 0 ≤ cf ∧ cf < 8 then
        acc ||| ssFromSquare (make_square cf.toNat cr.toNat) else acc
      pathLoop fuel (cr + sr) (cf + sf) tr tf sr sf acc

/-- Rust `SquareSet::make_path`: the open interval of squares strictly
between `from` and `to` along a rank, file or diagonal; empty otherwise. -/
def make_path (f t : Nat) : Nat :=
  let fr : Int := squareRank f
  let ff : Int := squareFile f
  let tr : Int := squareRank t
  let tf : Int := squareFile t
  let rank_diff := tr - fr
  let file_diff := tf - ff
  if rank_diff ≠ 0 ∧ file_diff ≠ 0 ∧ rank_diff.natAbs ≠ file_diff.natAbs then 0
  else
    let sr : Int := if rank_diff > 0 then 1 else if rank_diff < 0 then -1 else 0
    let sf : Int := if file_diff > 0 then 1 else if file_diff < 0 then -1 else 0
    pathLoop 8 (fr + sr) (ff + sf) tr tf sr sf 0

/-- Rust `square_set::equal_set` / `find_piece`: squares holding `piece`. -/
def find_piece (bd : Board) (piece : Piece) : Nat :=
  (List.range 64).foldl
    (fun acc s => if bd s = piece then acc ||| ssFromSquare s else acc) 0

/-! # moves_table/src/lib.rs -/

/-- Rust `moves_table::clear_path`. -/
def clear_path (occupancy : Nat) (f t : Nat) : Bool :=
  occupancy &&& make_path f t == 0

/-- Rust `MovesTable::white_pawn_moves`. -/
def white_pawn_moves (f : Nat) : Nat :=
  let file := squareFile f
  let rank := squareRank f
  if rank < 7 then
    let m := ssFromSquare (make_square file (rank + 1))
    if rank = 1 then m ||| ssFromSquare (make_square file (rank + 2)) else m
  else 0

/-- Rust `MovesTable::black_pawn_moves`. -/
def black_pawn_moves (f : Nat) : Nat :=
  let file := squareFile f
  let rank := squareRank f
  if rank > 0 then
    let m := ssFromSquare (make_square file (rank - 1))
    if rank = 6 then m ||| ssFromSquare (make_square file (rank - 2)) else m
  else 0

/-- Rust `MovesTable::white_pawn_attacks`. -/
def white_pawn_attacks (f : Nat) : Nat :=
  let file := squareFile f
  let rank := squareRank f
  if rank < 7 then
    (if file > 0 then ssFromSquare (make_square (file - 1) (rank + 1)) else 0) |||
    (if file < 7 then ssFromSquare (make_square (file + 1) (rank + 1)) else 0)
  else 0

/-- Rust `MovesTable::black_pawn_attacks`. -/
def black_pawn_attacks (f : Nat) : Nat :=
  let file := squareFile f
  let rank := squareRank f
  if rank > 0 then
    (if file > 0 then ssFromSquare (make_square (file - 1) (rank - 1)) else 0) |||
    (if file < 7 then ssFromSquare (make_square (file + 1) (rank - 1)) else 0)
  else 0

/-- Accumulate the in-bounds squares at the given (file, rank) deltas. -/
def deltaMoves (f : Nat) (deltas : List (Int × Int)) : Nat :=
  let file : Int := squareFile f
  let rank : Int := squareRank f
  deltas.foldl
    (fun acc d =>
      let nf := file + d.1
      let nr := rank + d.2
      if 0 ≤ nf ∧ nf < 8 ∧ 0 ≤ nr ∧ nr < 8 then
        acc ||| ssFromSquare (make_square nf.toNat nr.toNat)
      else acc)
    0

/-- Rust `MovesTable::knight_moves`. -/
def knight_moves (f : Nat) : Nat :=
  deltaMoves f [(-2, -1), (-2, 1), (-1, -2), (-1, 2), (1, -2), (1, 2), (2, -1), (2, 1)]

/-- Rust `MovesTable::king_moves`. -/
def king_moves (f : Nat) : Nat :=
  deltaMoves f [(-1, -1), (-1, 0), (-1, 1), (0, -1), (0, 1), (1, -1), (1, 0), (1, 1)]

/-- Rust `MovesTable::rook_moves` (full rank and file, occupancy ignored). -/
def rook_moves (f : Nat) : Nat :=
  let file := squareFile f
  let rank := squareRank f
  (List.range 8).foldl
    (fun acc i =>
      let acc := if i ≠ file then acc ||| ssFromSquare (make_square i rank) else acc
      if i ≠ rank then acc ||| ssFromSquare (make_square file i) else acc)
    0

/-- Rust `MovesTable::bishop_moves`.  The Rust loop breaks at the first
out-of-bounds step of each direction; since later steps of a direction stay
out of bounds, collecting all in-bounds steps is the same set. -/
def bishop_moves (f : Nat) : Nat :=
  let file : Int := squareFile f
  let rank : Int := squareRank f
  [((1 : Int), (1 : Int)), (1, -1), (-1, 1), (-1, -1)].foldl
    (fun acc d =>
      (List.range 7).foldl
        (fun acc i =>
          let nf := file + d.1 * (i + 1)
          let nr := rank + d.2 * (i + 1)
          if 0 ≤ nf ∧ nf < 8 ∧ 0 ≤ nr ∧ nr < 8 then
            acc ||| ssFromSquare (make_square nf.toNat nr.toNat)
          else acc)
        acc)
    0

/-- Rust `MovesTable::queen_moves`. -/
def queen_moves (f : Nat) : Nat := rook_moves f ||| bishop_moves f

/-- Rust `MovesTable::compute_possible_moves`; the precomputed table entry
`moves[piece][square]` equals this function of (piece, square). -/
def possible_moves (piece : Piece) (f : Nat) : Nat :=
  match piece with
  | .P => white_pawn_moves f
  | .p => black_pawn_moves f
  | .N | .n => knight_moves f
  | .B | .b => bishop_moves f
  | .R | .r => rook_moves f
  | .Q | .q => queen_moves f
  | .K | .k => king_moves f
  | .Empty => 0

/-- Rust `MovesTable::compute_possible_captures`; the precomputed table entry
`captures[piece][square]` equals this function of (piece, square). -/
def possible_captures (piece : Piece) (f : Nat) : Nat :=
  match piece with
  | .P => white_pawn_attacks f
  | .p => black_pawn_attacks f
  | .N | .n => knight_moves f
  | .B | .b => bishop_moves f
  | .R | .r => rook_moves f
  | .Q | .q => queen_moves f
  | .K | .k => king_moves f
  | .Empty => 0

def allPieces : List Piece :=
  [.P, .N, .B, .R, .Q, .K, .Empty, .p, .n, .b, .r, .q, .k]

/-- Rust `MovesTable::initialize_attackers`: square `from` is in
`attackers[to]` iff some piece's capture set from `from` contains `to`. -/
def attackers (t : Nat) : Nat :=
  (List.range 64).foldl
    (fun acc f =>
      if allPieces.any (fun piece => ssContains (possible_captures piece f) t) then
        acc ||| ssFromSquare f
      else acc)
    0

/-! # moves/src/lib.rs -/

inductive MoveKind where
  | QuietMove
  | DoublePush
  | OO
  | OOO
  | Capture
  | EnPassant
  | KnightPromotion
  | BishopPromotion
  | RookPromotion
  | QueenPromotion
  | KnightPromotionCapture
  | BishopPromotionCapture
  | RookPromotionCapture
  | QueenPromotionCapture
deriving DecidableEq, Repr

/-- Rust `MoveKind::index` (the enum discriminant). -/
def MoveKind.index : MoveKind → Nat
  | .QuietMove => 0
  | .DoublePush => 1
  | .OO => 2
  | .OOO => 3
  | .Capture => 4
  | .EnPassant => 5
  | .KnightPromotion => 8
  | .BishopPromotion => 9
  | .RookPromotion => 10
  | .QueenPromotion => 11
  | .KnightPromotionCapture => 12
  | .BishopPromotionCapture => 13
  | .RookPromotionCapture => 14
  | .QueenPromotionCapture => 15

/-- Rust `MoveKind::is_capture` (bit 2 of the index). -/
def MoveKind.is_capture (k : MoveKind) : Bool := k.index &&& 4 != 0

/-- Rust `MoveKind::is_promotion` (bit 3 of the index). -/
def MoveKind.is_promotion (k : MoveKind) : Bool := k.index &&& 8 != 0

structure Move where
  from_sq : Nat
  to_sq : Nat
  kind : MoveKind
deriving DecidableEq, Repr

structure FromTo where
  from_sq : Nat
  to_sq : Nat
deriving DecidableEq, Repr

def FromTo.dflt : FromTo := { from_sq := 0, to_sq := 0 }

structure MoveWithPieces where
  mv : Move
  piece : Piece
  captured : Piece
deriving DecidableEq, Repr

/-- Rust `BoardChange`: data to make or unmake a move. -/
structure BoardChange where
  captured : Piece
  promo : Nat
  first : FromTo
  second : FromTo
deriving DecidableEq, Repr

/-- Rust `UndoPosition`. -/
structure UndoPosition where
  board : BoardChange
  turn : Turn
deriving DecidableEq, Repr

/-- Rust `Occupancy`. -/
structure Occupancy where
  theirs : Nat
  ours : Nat
deriving DecidableEq, Repr

def Occupancy.all (o : Occupancy) : Nat := o.theirs ||| o.ours

/-- Rust `Occupancy::from_board`. -/
def Occupancy.from_board (bd : Board) (active : Color) : Occupancy :=
  (List.range 64).foldl
    (fun o s =>
      let piece := bd s
      if piece ≠ Piece.Empty then
        if piece.color = active then { o with ours := o.ours ||| ssFromSquare s }
        else { o with theirs := o.theirs ||| ssFromSquare s }
      else o)
    { theirs := 0, ours := 0 }

/-! # moves/src/moves.rs -/

structure CompoundMove where
  to_sq : Nat
  promo : Nat
  second : FromTo

/-- Rust `compound_move`.  Castling kinds with a from square other than
E1 (4) or E8 (60) are `unreachable!` in Rust; the junk fallthrough to the
simple shape here is never reached on the executions considered. -/
def compound_move (mv : Move) : CompoundMove :=
  match mv.kind with
  | .OO =>
    if mv.from_sq = 4 then { to_sq := mv.to_sq, promo := 0, second := { from_sq := 7, to_sq := 5 } }
    else if mv.from_sq = 60 then { to_sq := mv.to_sq, promo := 0, second := { from_sq := 63, to_sq := 61 } }
    else { to_sq := mv.to_sq, promo := 0, second := FromTo.dflt }
  | .OOO =>
    if mv.from_sq = 4 then { to_sq := mv.to_sq, promo := 0, second := { from_sq := 0, to_sq := 3 } }
    else if mv.from_sq = 60 then { to_sq := mv.to_sq, promo := 0, second := { from_sq := 56, to_sq := 59 } }
    else { to_sq := mv.to_sq, promo := 0, second := FromTo.dflt }
  | .EnPassant =>
    let captured_square :=
      if squareRank mv.to_sq > squareRank mv.from_sq then
        make_square (squareFile mv.to_sq) (squareRank mv.to_sq - 1)
      else
        make_square (squareFile mv.to_sq) (squareRank mv.to_sq + 1)
    { to_sq := captured_square, promo := 0
      second := { from_sq := captured_square, to_sq := mv.to_sq } }
  | .KnightPromotion | .BishopPromotion | .RookPromotion | .QueenPromotion
  | .KnightPromotionCapture | .BishopPromotionCapture | .RookPromotionCapture
  | .QueenPromotionCapture =>
    { to_sq := mv.to_sq, promo := (mv.kind.index &&& 3) + 1
      second := { from_sq := mv.to_sq, to_sq := mv.to_sq } }
  | _ => { to_sq := mv.to_sq, promo := 0, second := FromTo.dflt }

/-- Rust `prepare_move`. -/
def prepare_move (bd : Board) (mv : Move) : BoardChange :=
  let compound := compound_move mv
  { captured := bd compound.to_sq
    promo := compound.promo
    first := { from_sq := mv.from_sq, to_sq := compound.to_sq }
    second := compound.second }

/-- Rust `make_move_board` (the board after the mutation).  Step for step:
take the piece at `first.from_sq` (leaving Empty), put it at `first.to`; take
the piece at `second.from_sq` (leaving Empty), bump it by `promo` piece indices
if promoting, put it at `second.to`. -/
def make_move_board (bd : Board) (change : BoardChange) : Board :=
  let first := bd change.first.from_sq
  let bd := boardSet bd change.first.from_sq .Empty
  let bd := boardSet bd change.first.to_sq first
  let second := bd change.second.from_sq
  let bd := boardSet bd change.second.from_sq .Empty
  let second := if change.promo > 0 then Piece.from_index (second.index + change.promo) else second
  boardSet bd change.second.to_sq second

/-- Rust `make_move`: prepare then apply; returns the new board and the
change record. -/
def make_move (bd : Board) (mv : Move) : Board × BoardChange :=
  let change := prepare_move bd mv
  (make_move_board bd change, change)

/-- Rust `unmake_move_board`.  In Rust the subtraction
`ours.index() - promo` underflows (panics) if the piece index is below the
promotion delta; the Nat truncated subtraction here is junk never reached on
the executions considered. -/
def unmake_move_board (bd : Board) (undo : BoardChange) : Board :=
  let ours := bd undo.second.to_sq
  let bd := boardSet bd undo.second.to_sq .Empty
  let ours := if undo.promo > 0 then Piece.from_index (ours.index - undo.promo) else ours
  let bd := boardSet bd undo.second.from_sq ours
  let w := bd undo.first.to_sq
  let bd := boardSet bd undo.first.to_sq undo.captured
  boardSet bd undo.first.from_sq w

/-- Rust `castling_mask`: the castling rights cancelled by a move touching
E1/H1/A1/E8/H8/A8 as origin or destination. -/
def castling_mask (f t : Nat) : Nat :=
  [(4, cmKQ), (7, cmK), (0, cmQ), (60, cmkq), (63, cmk), (56, cmq)].foldl
    (fun acc sm => if f = sm.1 ∨ t = sm.1 then acc ||| sm.2 else acc) 0

/-- Rust `apply_move_turn`. -/
def apply_move_turn (turn : Turn) (mwp : MoveWithPieces) : Turn :=
  let turn := { turn with en_passant := NO_EN_PASSANT_TARGET }
  let turn :=
    if mwp.mv.kind = MoveKind.DoublePush then
      let target_rank := (squareRank mwp.mv.from_sq + squareRank mwp.mv.to_sq) / 2
      { turn with en_passant := make_square (squareFile mwp.mv.from_sq) target_rank }
    else turn
  let mask := castling_mask mwp.mv.from_sq mwp.mv.to_sq
  let turn := { turn with castling := turn.castling &&& cmNot mask }
  let turn := turn.tick
  if mwp.piece.piece_type = PieceType.Pawn ∨ mwp.mv.kind.is_capture then
    { turn with halfmove := 0 }
  else turn

/-- Rust `make_move_position_with_change`. -/
def make_move_position_with_change (pos : Position) (change : BoardChange) (mv : Move) :
    Position × UndoPosition :=
  let ours := pos.board change.first.from_sq
  let undo : UndoPosition := { board := change, turn := pos.turn }
  let board := make_move_board pos.board change
  let mwp : MoveWithPieces := { mv := mv, piece := ours, captured := change.captured }
  ({ board := board, turn := apply_move_turn pos.turn mwp }, undo)

/-- Rust `make_move_position`. -/
def make_move_position (pos : Position) (mv : Move) : Position × UndoPosition :=
  let change := prepare_move pos.board mv
  make_move_position_with_change pos change mv

/-- Rust `unmake_move_position`. -/
def unmake_move_position (pos : Position) (undo : UndoPosition) : Position :=
  { board := unmake_move_board pos.board undo.board, turn := undo.turn }

/-- Rust `apply_move` (functional make). -/
def apply_move (pos : Position) (mv : Move) : Position :=
  let piece := pos.board mv.from_sq
  let (board, undo) := make_move pos.board mv
  let mwp : MoveWithPieces := { mv := mv, piece := piece, captured := undo.captured }
  { board := board, turn := apply_move_turn pos.turn mwp }

/-! ## Properties of `apply_move_turn` (claim C8) -/

/-- The passed-over square of a genuine double push is the midpoint. -/
theorem make_square_midpoint (a b : Nat) (ha : a < 64) (hb : b < 64)
    (h : b = a + 16 ∨ a = b + 16) :
    make_square (squareFile a) ((squareRank a + squareRank b) / 2) = (a + b) / 2 := by
  simp only [make_square, squareFile, squareRank]
  rcases h with h | h
  · rw [if_pos (by omega)]
    omega
  · rw [if_pos (by omega)]
    omega

/-- **C8.** For every turn and move-with-pieces whose squares are on the
board, whose halfmove clock and fullmove number are below their u8/u16
limits, and whose shape is a genuine double push when its kind says so,
`apply_move_turn`: clears the en-passant target unless the move is a double
push, in which case it sets it to the passed-over square (the midpoint of
from and to); sets the halfmove clock to 0 if a pawn moved or the move
captures and to its successor otherwise; flips the active color; and
increments the fullmove number exactly when the new active color is White. -/
theorem apply_move_turn_spec (turn : Turn) (mwp : MoveWithPieces)
    (hh : turn.halfmove ≤ 254) (hf : turn.fullmove ≤ 65534)
    (hsq : mwp.mv.from_sq < 64 ∧ mwp.mv.to_sq < 64)
    (hdp : mwp.mv.kind = MoveKind.DoublePush →
      mwp.mv.to_sq = mwp.mv.from_sq + 16 ∨ mwp.mv.from_sq = mwp.mv.to_sq + 16) :
    let turn' := apply_move_turn turn mwp
    (mwp.mv.kind ≠ MoveKind.DoublePush → turn'.en_passant = NO_EN_PASSANT_TARGET)
    ∧ (mwp.mv.kind = MoveKind.DoublePush →
        turn'.en_passant = (mwp.mv.from_sq + mwp.mv.to_sq) / 2)
    ∧ turn'.halfmove =
        (if mwp.piece.piece_type = PieceType.Pawn ∨ mwp.mv.kind.is_capture then 0
         else turn.halfmove + 1)
    ∧ turn'.active_color = turn.active_color.flip
    ∧ turn'.fullmove =
        (if turn.active_color.flip = Color.White then turn.fullmove + 1 else turn.fullmove) := by
  obtain ⟨hfrom, hto⟩ := hsq
  unfold apply_move_turn Turn.tick
  simp only []
  refine ⟨?_, ?_, ?_, ?_, ?_⟩
  · intro hk
    split_ifs <;> simp_all
  · intro hk
    have hmid := make_square_midpoint mwp.mv.from_sq mwp.mv.to_sq hfrom hto (hdp hk)
    split_ifs <;> simp_all
  · have : (turn.halfmove + 1) % 256 = turn.halfmove + 1 := Nat.mod_eq_of_lt (by omega)
    split_ifs <;> simp_all
  · split_ifs <;> simp_all
  · have : (turn.fullmove + 1) % 65536 = turn.fullmove + 1 := Nat.mod_eq_of_lt (by omega)
    split_ifs <;> simp_all

/-! ## Make/unmake round trip (claim C2) -/

/-- Round trip for changes whose second displacement is a no-op
(`second.from = second.to`) and that do not promote: quiet moves, double
pushes and plain captures. -/
theorem restore_simple (bd : Board) (f1 t1 z : Nat)
    (c : BoardChange)
    (hc : c = { captured := bd t1, promo := 0, first := { from_sq := f1, to_sq := t1 },
                second := { from_sq := z, to_sq := z } }) :
    ∀ sq, unmake_move_board (make_move_board bd c) c sq = bd sq := by
  subst hc
  intro sq
  simp only [make_move_board, unmake_move_board, boardSet]
  split_ifs <;> simp_all

/-- Round trip for promotion changes: the moved piece is a pawn and the
promotion delta is between 1 and 4, so bumping the piece index and bumping
it back is the identity. -/
theorem restore_promo (bd : Board) (f1 t1 promo : Nat)
    (hpawn : bd f1 = Piece.P ∨ bd f1 = Piece.p)
    (hpromo : 1 ≤ promo ∧ promo ≤ 4)
    (c : BoardChange)
    (hc : c = { captured := bd t1, promo := promo, first := { from_sq := f1, to_sq := t1 },
                second := { from_sq := t1, to_sq := t1 } }) :
    ∀ sq, unmake_move_board (make_move_board bd c) c sq = bd sq := by
  subst hc
  intro sq
  obtain ⟨h1, h4⟩ := hpromo
  simp only [make_move_board, unmake_move_board, boardSet]
  interval_cases promo <;> rcases hpawn with hp | hp <;> split_ifs <;>
    simp_all [Piece.index, Piece.from_index]

/-- Round trip for castling changes: the four squares involved are pairwise
distinct and the rook-transit square is empty before the move. -/
theorem restore_castle (bd : Board) (e g h f : Nat)
    (hd : e ≠ g ∧ e ≠ h ∧ e ≠ f ∧ g ≠ h ∧ g ≠ f ∧ h ≠ f)
    (hf : bd f = Piece.Empty)
    (c : BoardChange)
    (hc : c = { captured := bd g, promo := 0, first := { from_sq := e, to_sq := g },
                second := { from_sq := h, to_sq := f } }) :
    ∀ sq, unmake_move_board (make_move_board bd c) c sq = bd sq := by
  subst hc
  intro sq
  obtain ⟨d1, d2, d3, d4, d5, d6⟩ := hd
  simp only [make_move_board, unmake_move_board, boardSet]
  split_ifs <;> simp_all

/-- Round trip for en-passant changes: origin, captured square and
destination are pairwise distinct and the destination is empty before the
move. -/
theorem restore_en_passant (bd : Board) (f1 capt t2 : Nat)
    (hd : f1 ≠ capt ∧ f1 ≠ t2 ∧ capt ≠ t2)
    (ht : bd t2 = Piece.Empty)
    (c : BoardChange)
    (hc : c = { captured := bd capt, promo := 0, first := { from_sq := f1, to_sq := capt },
                second := { from_sq := capt, to_sq := t2 } }) :
    ∀ sq, unmake_move_board (make_move_board bd c) c sq = bd sq := by
  subst hc
  intro sq
  obtain ⟨d1, d2, d3⟩ := hd
  simp only [make_move_board, unmake_move_board, boardSet]
  split_ifs <;> simp_all

/-- **C2 (amended).** Make followed by unmake restores the position — all 64
board squares and every Turn field — for every move decomposable by
`prepare_move`, provided that: a castling move has its standard shape and its
rook-transit square is empty; an en-passant move has a well-formed captured
square, pairwise distinct origin, captured and destination squares, and an
empty destination square; a promotion moves an actual pawn.  (The unamended
claim fails: see the counterexample, where an en-passant move onto an
occupied destination square erases that square's piece.) -/
theorem make_unmake_position_restores (pos : Position) (mv : Move)
    (hOO : mv.kind = MoveKind.OO →
      (mv.from_sq = 4 ∧ mv.to_sq = 6 ∧ pos.board 5 = Piece.Empty) ∨
      (mv.from_sq = 60 ∧ mv.to_sq = 62 ∧ pos.board 61 = Piece.Empty))
    (hOOO : mv.kind = MoveKind.OOO →
      (mv.from_sq = 4 ∧ mv.to_sq = 2 ∧ pos.board 3 = Piece.Empty) ∨
      (mv.from_sq = 60 ∧ mv.to_sq = 58 ∧ pos.board 59 = Piece.Empty))
    (hEP : mv.kind = MoveKind.EnPassant →
      mv.to_sq < 64 ∧ pos.board mv.to_sq = Piece.Empty ∧
      (let capt := if squareRank mv.to_sq > squareRank mv.from_sq then mv.to_sq - 8
                   else mv.to_sq + 8
       capt < 64 ∧ mv.from_sq ≠ capt ∧ mv.from_sq ≠ mv.to_sq))
    (hPromo : mv.kind.is_promotion = true →
      pos.board mv.from_sq = Piece.P ∨ pos.board mv.from_sq = Piece.p) :
    let made := make_move_position pos mv
    let restored := unmake_move_position made.1 made.2
    (∀ sq, restored.board sq = pos.board sq) ∧ restored.turn = pos.turn := by
  obtain ⟨f, t, k⟩ := mv
  refine ⟨?_, rfl⟩
  show ∀ sq, unmake_move_board (make_move_board pos.board (prepare_move pos.board ⟨f, t, k⟩))
      (prepare_move pos.board ⟨f, t, k⟩) sq = pos.board sq
  cases k
  case QuietMove =>
    exact restore_simple pos.board f t 0 _ (by simp [prepare_move, compound_move, FromTo.dflt])
  case DoublePush =>
    exact restore_simple pos.board f t 0 _ (by simp [prepare_move, compound_move, FromTo.dflt])
  case Capture =>
    exact restore_simple pos.board f t 0 _ (by simp [prepare_move, compound_move, FromTo.dflt])
  case OO =>
    rcases hOO rfl with ⟨hf, ht, he⟩ | ⟨hf, ht, he⟩
    · subst hf; subst ht
      exact restore_castle pos.board 4 6 7 5 (by omega) he _
        (by simp [prepare_move, compound_move])
    · subst hf; subst ht
      exact restore_castle pos.board 60 62 63 61 (by omega) he _
        (by simp [prepare_move, compound_move])
  case OOO =>
    rcases hOOO rfl with ⟨hf, ht, he⟩ | ⟨hf, ht, he⟩
    · subst hf; subst ht
      exact restore_castle pos.board 4 2 0 3 (by omega) he _
        (by simp [prepare_move, compound_move])
    · subst hf; subst ht
      exact restore_castle pos.board 60 58 56 59 (by omega) he _
        (by simp [prepare_move, compound_move])
  case EnPassant =>
    obtain ⟨ht64, hemp, hcapt⟩ := hEP rfl
    dsimp only at ht64 hemp hcapt
    by_cases hasc : squareRank t > squareRank f
    · rw [if_pos hasc] at hcapt
      obtain ⟨hc64, hfc, hft⟩ := hcapt
      simp only [squareRank] at hasc
      have hsq : make_square (squareFile t) (squareRank t - 1) = t - 8 := by
        simp only [make_square, squareFile, squareRank]
        rw [if_pos (by omega)]
        omega
      refine restore_en_passant pos.board f (t - 8) t ⟨hfc, hft, by omega⟩ hemp _ ?_
      dsimp only [prepare_move, compound_move]
      rw [if_pos (by simp only [squareRank]; omega), hsq]
    · rw [if_neg hasc] at hcapt
      obtain ⟨hc64, hfc, hft⟩ := hcapt
      simp only [squareRank] at hasc
      have hsq : make_square (squareFile t) (squareRank t + 1) = t + 8 := by
        simp only [make_square, squareFile, squareRank]
        rw [if_pos (by omega)]
        omega
      refine restore_en_passant pos.board f (t + 8) t ⟨hfc, hft, by omega⟩ hemp _ ?_
      dsimp only [prepare_move, compound_move]
      rw [if_neg (by simp only [squareRank]; omega), hsq]
  case KnightPromotion =>
    exact restore_promo pos.board f t 1 (hPromo (by simp [MoveKind.is_promotion, MoveKind.index])) (by omega) _
      (by simp [prepare_move, compound_move, MoveKind.index] <;> decide)
  case BishopPromotion =>
    exact restore_promo pos.board f t 2 (hPromo (by simp [MoveKind.is_promotion, MoveKind.index])) (by omega) _
      (by simp [prepare_move, compound_move, MoveKind.index] <;> decide)
  case RookPromotion =>
    exact restore_promo pos.board f t 3 (hPromo (by simp [MoveKind.is_promotion, MoveKind.index])) (by omega) _
      (by simp [prepare_move, compound_move, MoveKind.index] <;> decide)
  case QueenPromotion =>
    exact restore_promo pos.board f t 4 (hPromo (by simp [MoveKind.is_promotion, MoveKind.index])) (by omega) _
      (by simp [prepare_move, compound_move, MoveKind.index] <;> decide)
  case KnightPromotionCapture =>
    exact restore_promo pos.board f t 1 (hPromo (by simp [MoveKind.is_promotion, MoveKind.index])) (by omega) _
      (by simp [prepare_move, compound_move, MoveKind.index] <;> decide)
  case BishopPromotionCapture =>
    exact restore_promo pos.board f t 2 (hPromo (by simp [MoveKind.is_promotion, MoveKind.index])) (by omega) _
      (by simp [prepare_move, compound_move, MoveKind.index] <;> decide)
  case RookPromotionCapture =>
    exact restore_promo pos.board f t 3 (hPromo (by simp [MoveKind.is_promotion, MoveKind.index])) (by omega) _
      (by simp [prepare_move, compound_move, MoveKind.index] <;> decide)
  case QueenPromotionCapture =>
    exact restore_promo pos.board f t 4 (hPromo (by simp [MoveKind.is_promotion, MoveKind.index])) (by omega) _
      (by simp [prepare_move, compound_move, MoveKind.index] <;> decide)

/-- **C2 counterexample.** With a white pawn on d5 (35), a black pawn on e5
(36) and a black knight on e6 (44), the en-passant move d5xe6 writes the
capturing pawn over the knight on e6; `unmake_move_position` leaves e6 empty
instead of restoring the knight, so make-then-unmake does not restore the
position byte for byte. -/
theorem make_unmake_not_restored :
    let bd : Board := fun s =>
      if s = 35 then Piece.P else if s = 36 then Piece.p else
      if s = 44 then Piece.n else Piece.Empty
    let pos : Position := { board := bd, turn := Turn.initial }
    let mv : Move := { from_sq := 35, to_sq := 44, kind := MoveKind.EnPassant }
    let made := make_move_position pos mv
    (unmake_move_position made.1 made.2).board 44 ≠ pos.board 44 := by
  decide

/-- **C2 witness.** The amended round trip applied to the genuine en-passant
capture d5xe6 (destination square empty). -/
theorem make_unmake_position_restores_witness :
    let bd : Board := fun s =>
      if s = 35 then Piece.P else if s = 36 then Piece.p else
      if s = 4 then Piece.K else if s = 60 then Piece.k else Piece.Empty
    let pos : Position := { board := bd, turn := Turn.initial }
    let mv : Move := { from_sq := 35, to_sq := 44, kind := MoveKind.EnPassant }
    let made := make_move_position pos mv
    let restored := unmake_move_position made.1 made.2
    (∀ sq, restored.board sq = pos.board sq) ∧ restored.turn = pos.turn := by
  exact make_unmake_position_restores _ _ (by decide) (by decide) (by decide) (by decide)

/-- **C8 witness.** `apply_move_turn_spec` applied to the double push e2e4
from the initial turn state. -/
theorem apply_move_turn_spec_witness :
    let turn : Turn := Turn.initial
    let mwp : MoveWithPieces :=
      { mv := { from_sq := 12, to_sq := 28, kind := MoveKind.DoublePush }
        piece := Piece.P, captured := Piece.Empty }
    let turn' := apply_move_turn turn mwp
    (mwp.mv.kind ≠ MoveKind.DoublePush → turn'.en_passant = NO_EN_PASSANT_TARGET)
    ∧ (mwp.mv.kind = MoveKind.DoublePush →
        turn'.en_passant = (mwp.mv.from_sq + mwp.mv.to_sq) / 2)
    ∧ turn'.halfmove =
        (if mwp.piece.piece_type = PieceType.Pawn ∨ mwp.mv.kind.is_capture then 0
         else turn.halfmove + 1)
    ∧ turn'.active_color = turn.active_color.flip
    ∧ turn'.fullmove =
        (if turn.active_color.flip = Color.White then turn.fullmove + 1 else turn.fullmove) := by
  exact apply_move_turn_spec _ _ (by decide) (by decide) (by decide) (by decide)

/-! # magic/src/magic.rs

The magic multiplier constants live in the generated file magic_gen.rs,
which is not part of the sources here; `Magic.new` therefore keeps the
multiplier as an argument, and the theorems quantify over any multiplier
that passes the collision verification built into `Magic::new` (the
specification describes the constants exactly as values generated ahead of
time by random search with that collision verification). -/

/-- Rust `rook_blockers`: the relevant-blocker mask, edges excluded.  The
four while loops of the source walk away from the square; collecting the
squares between the origin and the edge is the same set. -/
def rook_blockers (sq : Nat) : Nat :=
  let file := squareFile sq
  let rank := squareRank sq
  (List.range 8).foldl
    (fun acc i =>
      let acc := if rank < i ∧ i ≤ 6 then acc ||| ssFromSquare (make_square file i) else acc
      let acc := if 1 ≤ i ∧ i < rank then acc ||| ssFromSquare (make_square file i) else acc
      let acc := if file < i ∧ i ≤ 6 then acc ||| ssFromSquare (make_square i rank) else acc
      if 1 ≤ i ∧ i < file then acc ||| ssFromSquare (make_square i rank) else acc)
    0

/-- Rust `bishop_blockers` (edges excluded), by diagonal steps 1..6. -/
def bishop_blockers (sq : Nat) : Nat :=
  let file := squareFile sq
  let rank := squareRank sq
  (List.range 6).foldl
    (fun acc j =>
      let i := j + 1
      let acc := if rank + i ≤ 6 ∧ file + i ≤ 6 then
        acc ||| ssFromSquare (make_square (file + i) (rank + i)) else acc
      let acc := if rank + i ≤ 6 ∧ i + 1 ≤ file then
        acc ||| ssFromSquare (make_square (file - i) (rank + i)) else acc
      let acc := if i + 1 ≤ rank ∧ file + i ≤ 6 then
        acc ||| ssFromSquare (make_square (file + i) (rank - i)) else acc
      if i + 1 ≤ rank ∧ i + 1 ≤ file then
        acc ||| ssFromSquare (make_square (file - i) (rank - i)) else acc)
    0

/-- Rust `compute_slider_blockers`. -/
def compute_slider_blockers (sq : Nat) (is_bishop : Bool) : Nat :=
  if is_bishop then bishop_blockers sq else rook_blockers sq

/-- One directional loop of Rust `compute_rook_targets` /
`compute_bishop_targets`: step in direction (df, dr), insert each square,
stop after the first blocker or at the board edge.  Fuel 8 covers the at
most 7 steps. -/
def walkRay : Nat → Int → Int → Int → Int → Nat → Nat → Nat
  | 0, _, _, _, _, _, acc => acc
  | fuel + 1, f, r, df, dr, blockers, acc =>
    let nf := f + df
    let nr := r + dr
    if 0 ≤ nf ∧ nf < 8 ∧ 0 ≤ nr ∧ nr < 8 then
      let t := make_square nf.toNat nr.toNat
      let acc := acc ||| ssFromSquare t
      if ssContains blockers t then acc else walkRay fuel nf nr df dr blockers acc
    else acc

/-- Rust `compute_rook_targets`. -/
def compute_rook_targets (sq : Nat) (blockers : Nat) : Nat :=
  let f : Int := squareFile sq
  let r : Int := squareRank sq
  let a := walkRay 8 f r 0 1 blockers 0
  let a := walkRay 8 f r 0 (-1) blockers a
  let a := walkRay 8 f r 1 0 blockers a
  walkRay 8 f r (-1) 0 blockers a

/-- Rust `compute_bishop_targets`. -/
def compute_bishop_targets (sq : Nat) (blockers : Nat) : Nat :=
  let f : Int := squareFile sq
  let r : Int := squareRank sq
  let a := walkRay 8 f r 1 1 blockers 0
  let a := walkRay 8 f r (-1) 1 blockers a
  let a := walkRay 8 f r 1 (-1) blockers a
  walkRay 8 f r (-1) (-1) blockers a

/-- Rust `compute_slider_targets`: the classical brute-force ray walk. -/
def compute_slider_targets (sq : Nat) (is_bishop : Bool) (blockers : Nat) : Nat :=
  if is_bishop then compute_bishop_targets sq blockers else compute_rook_targets sq blockers

/-- The set bits of a u64 as single-bit values, lowest first; this is the
order in which the loop of Rust `parallel_deposit` consumes the mask. -/
def maskBits (m : Nat) : List Nat :=
  ((List.range 64).filter (fun i => Nat.testBit m i)).map (fun i => 1 <<< i)

/-- The loop of Rust `parallel_deposit`: deposit successive low bits of
`v` at the successive mask bit positions. -/
def depositList : Nat → List Nat → Nat
  | _, [] => 0
  | v, bpos :: rest => (if v % 2 = 1 then bpos else 0) ||| depositList (v / 2) rest

/-- Rust `parallel_deposit`. -/
def parallel_deposit (value mask : Nat) : Nat := depositList value (maskBits mask)

/-- Rust `SquareSet::len` (count_ones): the number of set bits. -/
def ssLen (m : Nat) : Nat := ((List.range 64).filter (fun i => Nat.testBit m i)).length

/-- Reading 64-bit entry `j` of a table of SquareSets encoded as one Nat
(entry `j` lives at bits 64*j..64*j+63).  This encodes the Rust
`Vec<SquareSet>` table of `Magic`. -/
def tget (tbl j : Nat) : Nat := (tbl >>> (64 * j)) &&& U64_MASK

/-- The index computation `(blockers * magic) >> shift` of Magic (u64
wrapping multiply). -/
def magicIdx (magic shift blockers : Nat) : Nat := ((blockers * magic) % U64_MOD) >>> shift

structure Magic where
  magic : Nat
  mask : Nat
  table : Nat
  shift : Nat
  ok : Bool

/-- One iteration of the table-filling loop of Rust `Magic::new`: compute
the blocker subset and its ray-walk targets, hash to an index; an occupied
slot must agree (the collision assert, recorded in the `ok` flag), an empty
slot is filled. -/
def magicStep (sq : Nat) (is_bishop : Bool) (magic shift : Nat) (mbits : List Nat)
    (acc : Nat × Bool) (i : Nat) : Nat × Bool :=
  let blockers := depositList i mbits
  let targets := compute_slider_targets sq is_bishop blockers
  let index := magicIdx magic shift blockers
  let slot := tget acc.1 index
  if slot ≠ 0 then (acc.1, acc.2 && (slot == targets))
  else (acc.1 + (targets <<< (64 * index)), acc.2)

/-- Rust `Magic::new`.  `ok = false` means the collision assert fired (the
Rust program panics and the table is never used). -/
def Magic.new (sq : Nat) (is_bishop : Bool) (magic : Nat) : Magic :=
  let mask := compute_slider_blockers sq is_bishop
  let bits := ssLen mask
  let shift := 64 - bits
  let mbits := maskBits mask
  let built := (List.range (2 ^ bits)).foldl (magicStep sq is_bishop magic shift mbits) (0, true)
  { magic := magic, mask := mask, table := built.1, shift := shift, ok := built.2 }

/-- Rust `Magic::targets`: mask the occupancy to the relevant blockers,
hash, and read the table entry. -/
def Magic.targets (m : Magic) (occupancy : Nat) : Nat :=
  tget m.table (magicIdx m.magic m.shift (occupancy &&& m.mask))

/-! ## Correctness of the magic lookup (claim C4) -/

theorem U64_MOD_eq : U64_MOD = 2 ^ 64 := by decide

theorem U64_MASK_eq : U64_MASK = 2 ^ 64 - 1 := by decide

/-- The inverse of `depositList`: extract the bits of `y` at the mask bit
positions into a compact value (proof machinery, not part of the source). -/
def extList : Nat → List Nat → Nat
  | _, [] => 0
  | y, bpos :: rest => (if y &&& bpos ≠ 0 then 1 else 0) + 2 * extList y rest

theorem extList_lt (y : Nat) : ∀ l : List Nat, extList y l < 2 ^ l.length := by
  intro l
  induction l with
  | nil => simp [extList]
  | cons b rest ih =>
      simp only [extList, List.length_cons, pow_succ]
      split_ifs <;> omega

theorem and_two_pow_cases (y p : Nat) : y &&& 2 ^ p = 2 ^ p ∨ y &&& 2 ^ p = 0 := by
  rcases h : y.testBit p with hf | ht
  · right
    apply Nat.eq_of_testBit_eq
    intro k
    simp only [Nat.testBit_and, Nat.testBit_two_pow, Nat.zero_testBit]
    by_cases hk : p = k
    · subst hk; simp [h]
    · simp [hk]
  · left
    apply Nat.eq_of_testBit_eq
    intro k
    simp only [Nat.testBit_and, Nat.testBit_two_pow]
    by_cases hk : p = k
    · subst hk; simp [h]
    · simp [hk]

/-- `depositList` after `extList` re-extracts the masked bits of `y`, one
OR-term per mask bit. -/
theorem depositList_extList (y : Nat) :
    ∀ l : List Nat, (∀ b ∈ l, ∃ p, b = 2 ^ p) →
    depositList (extList y l) l = l.foldr (fun b acc => (y &&& b) ||| acc) 0 := by
  intro l
  induction l with
  | nil => intro _; rfl
  | cons b rest ih =>
      intro hb
      obtain ⟨p, hp⟩ := hb b (List.mem_cons_self b rest)
      have hrest : ∀ x ∈ rest, ∃ p, x = 2 ^ p := fun x hx => hb x (List.mem_cons_of_mem b hx)
      simp only [extList, depositList, List.foldr_cons]
      by_cases hc : y &&& b ≠ 0
      · have hbb : y &&& b = b := by
          subst hp
          rcases and_two_pow_cases y p with h | h
          · exact h
          · exact absurd h hc
        simp only [if_pos hc]
        have h1 : ((1:Nat) + 2 * extList y rest) % 2 = 1 := by omega
        have h2 : ((1:Nat) + 2 * extList y rest) / 2 = extList y rest := by omega
        simp only [h1, h2, ih hrest, hbb]
        simp
      · simp only [if_neg hc]
        have h1 : ((0:Nat) + 2 * extList y rest) % 2 = 0 := by omega
        have h2 : ((0:Nat) + 2 * extList y rest) / 2 = extList y rest := by omega
        simp only [h1, h2, ih hrest]
        push_neg at hc
        simp [hc]

theorem maskBits_pows (m : Nat) : ∀ b ∈ maskBits m, ∃ p, b = 2 ^ p := by
  intro b hb
  simp only [maskBits, List.mem_map, List.mem_filter, List.mem_range] at hb
  obtain ⟨i, _, hi⟩ := hb
  exact ⟨i, by rw [← hi, Nat.one_shiftLeft]⟩

theorem maskBits_length (m : Nat) : (maskBits m).length = ssLen m := by
  simp [maskBits, ssLen]

/-- Bit k of the OR-fold of the masked bits of `y` over the bit positions
of `m`. -/
theorem testBit_foldr_masked (y m k : Nat) :
    Nat.testBit ((maskBits m).foldr (fun b acc => (y &&& b) ||| acc) 0) k =
      ((decide (k < 64)) && Nat.testBit m k && Nat.testBit y k) := by
  have main : ∀ ps : List Nat,
      Nat.testBit ((ps.map (fun i => 1 <<< i)).foldr (fun b acc => (y &&& b) ||| acc) 0) k =
        (decide (k ∈ ps) && Nat.testBit y k) := by
    intro ps
    induction ps with
    | nil => simp
    | cons p rest ih =>
        simp only [Nat.one_shiftLeft] at ih
        simp only [List.map_cons, List.foldr_cons, Nat.testBit_or, ih, Nat.one_shiftLeft,
          Nat.testBit_and, Nat.testBit_two_pow, List.mem_cons]
        cases hy : Nat.testBit y k <;> by_cases hmem : k ∈ rest <;> by_cases hk : p = k <;>
          simp [hy, hmem, hk] <;> omega
  rw [maskBits, main]
  by_cases h1 : k < 64
  · by_cases h2 : Nat.testBit m k
    · simp [List.mem_filter, List.mem_range, h1, h2]
    · simp [List.mem_filter, List.mem_range, h1, h2]
  · simp only [List.mem_filter, List.mem_range]
    have : ¬ (k < 64 ∧ Nat.testBit m k) := fun hx => h1 hx.1
    simp [h1, this]

/-- For a 64-bit mask, depositing the extraction of `y` gives `y &&& m`. -/
theorem depositList_extList_and (y m : Nat) (hm : m < 2 ^ 64) :
    depositList (extList y (maskBits m)) (maskBits m) = y &&& m := by
  rw [depositList_extList y (maskBits m) (maskBits_pows m)]
  apply Nat.eq_of_testBit_eq
  intro k
  rw [testBit_foldr_masked, Nat.testBit_and]
  by_cases h1 : k < 64
  · simp [h1, Bool.and_comm]
  · have : Nat.testBit m k = false := by
      apply Nat.testBit_eq_false_of_lt
      calc m < 2 ^ 64 := hm
        _ ≤ 2 ^ k := Nat.pow_le_pow_right (by omega) (by omega)
    simp [h1, this]

theorem tget_eq (t j : Nat) : tget t j = t / 2 ^ (64 * j) % 2 ^ 64 := by
  rw [tget, U64_MASK_eq, Nat.and_pow_two_sub_one_eq_mod, Nat.shiftRight_eq_div_pow]



theorem slot_below (t v j jj : Nat) (hlt : jj < j) :
    (t + v * 2 ^ (64 * j)) / 2 ^ (64 * jj) % 2 ^ 64 = t / 2 ^ (64 * jj) % 2 ^ 64 := by
  have hfac : v * 2 ^ (64 * j) =
      v * 2 ^ (64 * j - 64 * jj - 64) * 2 ^ 64 * 2 ^ (64 * jj) := by
    rw [Nat.mul_assoc, Nat.mul_assoc, ← pow_add, ← pow_add]
    congr 1
    congr 1
    omega
  rw [hfac, Nat.add_mul_div_right _ _ (Nat.pos_pow_of_pos _ (by omega)),
    Nat.add_mul_mod_self_right]

theorem slot_here (t v j : Nat) (hv : v < 2 ^ 64)
    (h0 : t / 2 ^ (64 * j) % 2 ^ 64 = 0) :
    (t + v * 2 ^ (64 * j)) / 2 ^ (64 * j) % 2 ^ 64 = v := by
  rw [Nat.add_mul_div_right _ _ (Nat.pos_pow_of_pos _ (by omega))]
  obtain ⟨k, hk⟩ := Nat.dvd_of_mod_eq_zero h0
  rw [hk, Nat.mul_add_mod]
  exact Nat.mod_eq_of_lt hv

theorem slot_above (t v j jj : Nat) (hv : v < 2 ^ 64) (hgt : j < jj)
    (h0 : t / 2 ^ (64 * j) % 2 ^ 64 = 0) :
    (t + v * 2 ^ (64 * j)) / 2 ^ (64 * jj) % 2 ^ 64 = t / 2 ^ (64 * jj) % 2 ^ 64 := by
  have hA : (0:Nat) < 2 ^ (64 * j) := Nat.pos_pow_of_pos _ (by omega)
  have hstep : (2:Nat) ^ (64 * (j + 1)) = 2 ^ (64 * j) * 2 ^ 64 := by
    rw [← pow_add]
    ring_nf
  have hmodmul : t % (2 ^ (64 * j) * 2 ^ 64) = t % 2 ^ (64 * j) := by
    rw [Nat.mod_mul, h0, Nat.mul_zero, Nat.add_zero]
  have hd : (t + v * 2 ^ (64 * j)) / 2 ^ (64 * (j + 1)) = t / 2 ^ (64 * (j + 1)) := by
    have hdecomp := Nat.mod_add_div t (2 ^ (64 * (j + 1)))
    have hlo : t % 2 ^ (64 * (j + 1)) < 2 ^ (64 * j) := by
      rw [hstep, hmodmul]
      exact Nat.mod_lt _ hA
    have hsmall : t % 2 ^ (64 * (j + 1)) + v * 2 ^ (64 * j) < 2 ^ (64 * (j + 1)) := by
      have h1 : v * 2 ^ (64 * j) ≤ (2 ^ 64 - 1) * 2 ^ (64 * j) :=
        Nat.mul_le_mul_right _ (by omega)
      have h2 : (2 ^ 64 - 1) * 2 ^ (64 * j) = 2 ^ (64 * j) * 2 ^ 64 - 2 ^ (64 * j) := by
        rw [Nat.sub_mul, Nat.one_mul, Nat.mul_comm]
      rw [hstep]
      omega
    conv_lhs => rw [← hdecomp]
    rw [Nat.add_right_comm, Nat.add_mul_div_left _ _ (Nat.pos_pow_of_pos _ (by omega)),
      Nat.div_eq_of_lt hsmall, Nat.zero_add]
  have he : 64 * jj = 64 * (j + 1) + (64 * jj - 64 * (j + 1)) := by omega
  have hsp : ∀ x : Nat, x / 2 ^ (64 * jj) = x / 2 ^ (64 * (j + 1)) / 2 ^ (64 * jj - 64 * (j + 1)) := by
    intro x
    rw [Nat.div_div_eq_div_mul, ← pow_add, ← he]
  rw [hsp, hsp, hd]

/-- Writing value `v` into the empty slot `j` of an encoded table changes
slot `j` to `v` and no other slot. -/
theorem tget_update (t v j : Nat) (hv : v < 2 ^ 64) (h0 : tget t j = 0) :
    ∀ jj, tget (t + (v <<< (64 * j))) jj = if jj = j then v else tget t jj := by
  intro jj
  rw [tget_eq] at h0
  have hshift : v <<< (64 * j) = v * 2 ^ (64 * j) := Nat.shiftLeft_eq v (64 * j)
  rcases Nat.lt_trichotomy jj j with hlt | heq | hgt
  · rw [if_neg (by omega), tget_eq, tget_eq, hshift]
    exact slot_below t v j jj hlt
  · subst heq
    rw [if_pos rfl, tget_eq, hshift]
    exact slot_here t v jj hv h0
  · rw [if_neg (by omega), tget_eq, tget_eq, hshift]
    exact slot_above t v j jj hv hgt h0

theorem le_or_left (a b : Nat) : a ≤ a ||| b := by
  apply Nat.le_of_testBit
  intro i h
  simp [Nat.testBit_or, h]

theorem le_or_right (a b : Nat) : b ≤ a ||| b := by
  apply Nat.le_of_testBit
  intro i h
  simp [Nat.testBit_or, h]

theorem ssFromSquare_lt (s : Nat) : ssFromSquare s < 2 ^ 64 :=
  lt_of_le_of_lt Nat.and_le_right (by decide)

theorem ssFromSquare_pos (s : Nat) (hs : s < 64) : 0 < ssFromSquare s := by
  have hb : Nat.testBit (ssFromSquare s) s = true := by
    rw [ssFromSquare, U64_MASK_eq, Nat.testBit_and, Nat.one_shiftLeft,
      Nat.testBit_two_pow_self, Nat.testBit_two_pow_sub_one]
    simpa using hs
  apply Nat.pos_of_ne_zero
  intro h
  rw [h] at hb
  simp at hb

theorem walkRay_lt (fuel : Nat) : ∀ (f r df dr : Int) (b acc : Nat), acc < 2 ^ 64 →
    walkRay fuel f r df dr b acc < 2 ^ 64 := by
  induction fuel with
  | zero => intro _ _ _ _ _ acc h; exact h
  | succ n ih =>
    intro f r df dr b acc h
    simp only [walkRay]
    split_ifs with h1 h2
    · exact Nat.or_lt_two_pow h (ssFromSquare_lt _)
    · exact ih _ _ _ _ _ _ (Nat.or_lt_two_pow h (ssFromSquare_lt _))
    · exact h

theorem walkRay_le (fuel : Nat) : ∀ (f r df dr : Int) (b acc : Nat),
    acc ≤ walkRay fuel f r df dr b acc := by
  induction fuel with
  | zero => intro _ _ _ _ _ acc; exact le_refl acc
  | succ n ih =>
    intro f r df dr b acc
    simp only [walkRay]
    split_ifs with h1 h2
    · exact le_or_left _ _
    · exact le_trans (le_or_left _ _) (ih _ _ _ _ _ _)
    · exact le_refl acc

theorem walkRay_pos (n : Nat) (f r df dr : Int) (b acc : Nat)
    (h1 : 0 ≤ f + df ∧ f + df < 8 ∧ 0 ≤ r + dr ∧ r + dr < 8) :
    0 < walkRay (n + 1) f r df dr b acc := by
  have ht : make_square (f + df).toNat (r + dr).toNat < 64 := by
    rw [make_square]
    rw [if_pos]
    · omega
    · constructor <;> omega
  simp only [walkRay]
  rw [if_pos h1]
  have hpos : 0 < acc ||| ssFromSquare (make_square (f + df).toNat (r + dr).toNat) :=
    lt_of_lt_of_le (ssFromSquare_pos _ ht) (le_or_right _ _)
  split_ifs with h2
  · exact hpos
  · exact lt_of_lt_of_le hpos (walkRay_le _ _ _ _ _ _ _)

theorem compute_rook_targets_pos (sq b : Nat) (hsq : sq < 64) :
    0 < compute_rook_targets sq b := by
  have hf0 : (0:Int) ≤ (squareFile sq : Int) := by positivity
  have hf8 : ((squareFile sq : Int)) < 8 := by
    have : squareFile sq < 8 := Nat.mod_lt _ (by omega)
    omega
  have hr8 : ((squareRank sq : Int)) < 8 := by
    have : squareRank sq < 8 := by
      rw [squareRank]
      omega
    omega
  have hr0 : (0:Int) ≤ (squareRank sq : Int) := by positivity
  rw [compute_rook_targets]
  by_cases hup : (squareRank sq : Int) + 1 < 8
  · exact lt_of_lt_of_le
      (lt_of_lt_of_le
        (lt_of_lt_of_le (walkRay_pos 7 _ _ 0 1 b 0 (by constructor <;> omega))
          (walkRay_le 8 _ _ _ _ _ _))
        (walkRay_le 8 _ _ _ _ _ _))
      (walkRay_le 8 _ _ _ _ _ _)
  · exact lt_of_lt_of_le
      (lt_of_lt_of_le (walkRay_pos 7 _ _ 0 (-1) b _ (by constructor <;> omega))
        (walkRay_le 8 _ _ _ _ _ _))
      (walkRay_le 8 _ _ _ _ _ _)

theorem compute_bishop_targets_pos (sq b : Nat) (hsq : sq < 64) :
    0 < compute_bishop_targets sq b := by
  have hf0 : (0:Int) ≤ (squareFile sq : Int) := by positivity
  have hf8 : ((squareFile sq : Int)) < 8 := by
    have : squareFile sq < 8 := Nat.mod_lt _ (by omega)
    omega
  have hr8 : ((squareRank sq : Int)) < 8 := by
    have : squareRank sq < 8 := by
      rw [squareRank]
      omega
    omega
  have hr0 : (0:Int) ≤ (squareRank sq : Int) := by positivity
  rw [compute_bishop_targets]
  by_cases hup : (squareRank sq : Int) + 1 < 8
  · by_cases hrt : (squareFile sq : Int) + 1 < 8
    · exact lt_of_lt_of_le
        (lt_of_lt_of_le
          (lt_of_lt_of_le (walkRay_pos 7 _ _ 1 1 b 0 (by constructor <;> omega))
            (walkRay_le 8 _ _ _ _ _ _))
          (walkRay_le 8 _ _ _ _ _ _))
        (walkRay_le 8 _ _ _ _ _ _)
    · exact lt_of_lt_of_le
        (lt_of_lt_of_le (walkRay_pos 7 _ _ (-1) 1 b _ (by constructor <;> omega))
          (walkRay_le 8 _ _ _ _ _ _))
        (walkRay_le 8 _ _ _ _ _ _)
  · by_cases hrt : (squareFile sq : Int) + 1 < 8
    · exact lt_of_lt_of_le (walkRay_pos 7 _ _ 1 (-1) b _ (by constructor <;> omega))
        (walkRay_le 8 _ _ _ _ _ _)
    · exact walkRay_pos 7 _ _ (-1) (-1) b _ (by constructor <;> omega)

theorem compute_slider_targets_pos (sq : Nat) (isB : Bool) (b : Nat) (hsq : sq < 64) :
    0 < compute_slider_targets sq isB b := by
  rw [compute_slider_targets]
  cases isB
  · exact compute_rook_targets_pos sq b hsq
  · exact compute_bishop_targets_pos sq b hsq

theorem compute_slider_targets_lt (sq : Nat) (isB : Bool) (b : Nat) :
    compute_slider_targets sq isB b < 2 ^ 64 := by
  rw [compute_slider_targets]
  cases isB <;>
    [rw [compute_rook_targets]; rw [compute_bishop_targets]] <;>
    exact walkRay_lt 8 _ _ _ _ _ _ (walkRay_lt 8 _ _ _ _ _ _ (walkRay_lt 8 _ _ _ _ _ _
      (walkRay_lt 8 _ _ _ _ _ _ (by decide))))

theorem foldl_lt_two_pow {α : Type} (g : Nat → α → Nat)
    (hg : ∀ acc a, acc < 2 ^ 64 → g acc a < 2 ^ 64) :
    ∀ (l : List α) (acc : Nat), acc < 2 ^ 64 → l.foldl g acc < 2 ^ 64 := by
  intro l
  induction l with
  | nil => intro acc h; exact h
  | cons x xs ih => intro acc h; exact ih _ (hg _ _ h)

theorem compute_slider_blockers_lt (sq : Nat) (isB : Bool) :
    compute_slider_blockers sq isB < 2 ^ 64 := by
  rw [compute_slider_blockers]
  cases isB
  · rw [rook_blockers]
    apply foldl_lt_two_pow _ _ _ _ (by decide)
    intro acc a h
    dsimp only
    split_ifs <;>
      repeat' first
      | exact h
      | exact ssFromSquare_lt _
      | apply Nat.or_lt_two_pow
  · rw [bishop_blockers]
    apply foldl_lt_two_pow _ _ _ _ (by decide)
    intro acc a h
    dsimp only
    split_ifs <;>
      repeat' first
      | exact h
      | exact ssFromSquare_lt _
      | apply Nat.or_lt_two_pow

/-- Invariant of the table-filling loop of `Magic::new` after processing the
first `n` blocker subsets: every table slot is either still empty or holds
the ray-walk targets of some processed subset hashing there, and if no
collision has fired then every processed subset reads back its own targets. -/
theorem magic_fill_invariant (sq : Nat) (isB : Bool) (magic shift : Nat) (mbits : List Nat)
    (hpos : ∀ i, 0 < compute_slider_targets sq isB (depositList i mbits))
    (hlt : ∀ i, compute_slider_targets sq isB (depositList i mbits) < 2 ^ 64) :
    ∀ n : Nat,
      (∀ idx, tget ((List.range n).foldl (magicStep sq isB magic shift mbits) (0, true)).1 idx = 0 ∨
        ∃ i, i < n ∧ idx = magicIdx magic shift (depositList i mbits) ∧
          tget ((List.range n).foldl (magicStep sq isB magic shift mbits) (0, true)).1 idx
            = compute_slider_targets sq isB (depositList i mbits)) ∧
      (((List.range n).foldl (magicStep sq isB magic shift mbits) (0, true)).2 = true →
        ∀ i, i < n →
          tget ((List.range n).foldl (magicStep sq isB magic shift mbits) (0, true)).1
              (magicIdx magic shift (depositList i mbits))
            = compute_slider_targets sq isB (depositList i mbits)) := by
  intro n
  induction n with
  | zero =>
    constructor
    · intro idx
      left
      simp [tget]
    · intro _ i hi
      omega
  | succ n ih =>
    rw [List.range_succ, List.foldl_append, List.foldl_cons, List.foldl_nil]
    obtain ⟨ihc, ihok⟩ := ih
    set st := (List.range n).foldl (magicStep sq isB magic shift mbits) (0, true) with hst
    set idxn := magicIdx magic shift (depositList n mbits) with hidxn
    set tgtn := compute_slider_targets sq isB (depositList n mbits) with htgtn
    have hstep : magicStep sq isB magic shift mbits st n =
        if tget st.1 idxn ≠ 0 then (st.1, st.2 && (tget st.1 idxn == tgtn))
        else (st.1 + (tgtn <<< (64 * idxn)), st.2) := rfl
    by_cases hz : tget st.1 idxn ≠ 0
    · rw [hstep, if_pos hz]
      constructor
      · intro idx
        rcases ihc idx with h0 | ⟨i, hi, hidx, hval⟩
        · exact Or.inl h0
        · exact Or.inr ⟨i, by omega, hidx, hval⟩
      · intro hok2 i hi
        simp only at hok2
        rw [Bool.and_eq_true, beq_iff_eq] at hok2
        obtain ⟨hok2, hslot⟩ := hok2
        rcases Nat.lt_or_ge i n with hin | hin
        · exact ihok hok2 i hin
        · have : i = n := by omega
          subst this
          exact hslot
    · push_neg at hz
      rw [hstep, if_neg (by simpa using hz)]
      have upd := tget_update st.1 tgtn idxn (hlt n) hz
      constructor
      · intro idx
        rw [upd idx]
        by_cases heq : idx = idxn
        · rw [if_pos heq]
          exact Or.inr ⟨n, by omega, by rw [heq, hidxn], rfl⟩
        · rw [if_neg heq]
          rcases ihc idx with h0 | ⟨i, hi, hidx, hval⟩
          · exact Or.inl h0
          · exact Or.inr ⟨i, by omega, hidx, hval⟩
      · intro hok2 i hi
        simp only at hok2
        rcases Nat.lt_or_ge i n with hin | hin
        · have hold := ihok hok2 i hin
          have hne : magicIdx magic shift (depositList i mbits) ≠ idxn := by
            intro heq
            rw [heq] at hold
            rw [hz] at hold
            exact absurd hold (Nat.ne_of_lt (hpos i))
          rw [upd _, if_neg hne]
          exact hold
        · have : i = n := by omega
          subst this
          rw [upd _, if_pos rfl]

theorem magic_new_lookup (sq : Nat) (isB : Bool) (magic : Nat)
    (hsq : sq < 64)
    (hok : (Magic.new sq isB magic).ok = true)
    (i : Nat) (hi : i < 2 ^ ssLen (compute_slider_blockers sq isB)) :
    tget (Magic.new sq isB magic).table
        (magicIdx magic (64 - ssLen (compute_slider_blockers sq isB))
          (depositList i (maskBits (compute_slider_blockers sq isB))))
      = compute_slider_targets sq isB
          (depositList i (maskBits (compute_slider_blockers sq isB))) := by
  have h := (magic_fill_invariant sq isB magic (64 - ssLen (compute_slider_blockers sq isB))
      (maskBits (compute_slider_blockers sq isB))
      (fun j => compute_slider_targets_pos sq isB _ hsq)
      (fun j => compute_slider_targets_lt sq isB _)
      (2 ^ ssLen (compute_slider_blockers sq isB))).2
  simp only [Magic.new] at hok ⊢
  exact h hok i hi

/-- **C4** For every square, slider kind and occupancy, the magic-table
lookup `Magic::targets` agrees with the classical brute-force ray walk on
the occupancy restricted to the relevant blocker mask — for any magic
multiplier accepted by the collision verification built into `Magic::new`
(the generated `ROOK_MAGICS` / `BISHOP_MAGICS` constants are produced
exactly by that verification, so each shipped table satisfies `ok`). -/
theorem magic_targets_classical (sq : Nat) (isB : Bool) (magic occ : Nat)
    (hsq : sq < 64) (hok : (Magic.new sq isB magic).ok = true) :
    (Magic.new sq isB magic).targets occ
      = compute_slider_targets sq isB (occ &&& compute_slider_blockers sq isB) := by
  have hmlt : compute_slider_blockers sq isB < 2 ^ 64 := compute_slider_blockers_lt sq isB
  have hdep : depositList
      (extList (occ &&& compute_slider_blockers sq isB)
        (maskBits (compute_slider_blockers sq isB)))
      (maskBits (compute_slider_blockers sq isB))
      = occ &&& compute_slider_blockers sq isB := by
    rw [depositList_extList_and _ _ hmlt, Nat.and_assoc, Nat.and_self]
  have hi : extList (occ &&& compute_slider_blockers sq isB)
      (maskBits (compute_slider_blockers sq isB))
      < 2 ^ ssLen (compute_slider_blockers sq isB) := by
    rw [← maskBits_length]
    exact extList_lt _ _
  have h := magic_new_lookup sq isB magic hsq hok _ hi
  rw [hdep] at h
  simp only [Magic.targets, Magic.new]
  exact h

set_option maxRecDepth 100000 in
theorem magic_targets_classical_witness :
    (0:Nat) < 64 ∧ (Magic.new 0 true 1155226151881294336).ok = true ∧
    (Magic.new 0 true 1155226151881294336).targets 512
      = compute_slider_targets 0 true (512 &&& compute_slider_blockers 0 true) :=
  ⟨by decide, by decide,
    magic_targets_classical 0 true 1155226151881294336 512 (by decide) (by decide)⟩

/-! # moves_gen/src/moves_gen.rs

The move generator calls `magic::targets`, whose tables are built from the
generated magic constants (absent from the sources here, see above).  The
embedding therefore takes the slider-targets function `tgt` as a parameter;
the theorems fix it to the classical ray walk, which `Magic::targets`
equals for every verified magic constant by `magic_targets_classical`. -/

/-- Rust `PieceSet::from_pieces`. -/
def PieceSet_from_pieces (l : List Piece) : Nat :=
  l.foldl (fun acc p => acc ||| (1 <<< p.index)) 0

/-- Rust `PieceSet::contains`. -/
def pieceSet_contains (s : Nat) (p : Piece) : Bool := s &&& (1 <<< p.index) != 0

/-- Rust `SLIDERS`. -/
def SLIDERS : Nat := PieceSet_from_pieces [.B, .b, .R, .r, .Q, .q]

/-- `matches!(piece, B | b | Q | q)`. -/
def is_diag_slider : Piece → Bool
  | .B | .b | .Q | .q => true
  | _ => false

/-- `matches!(piece, R | r | Q | q)`. -/
def is_line_slider : Piece → Bool
  | .R | .r | .Q | .q => true
  | _ => false

/-- Rust `is_attacked`: does any opponent piece attack `square`?  `tgt` is
`magic::targets`. -/
def is_attacked (tgt : Nat → Bool → Nat → Nat) (bd : Board) (square : Nat)
    (occupancy : Occupancy) : Bool :=
  (squaresOf occupancy.theirs).any (fun f =>
    let piece := bd f
    if piece = Piece.Empty then false
    else
      let attacks :=
        if pieceSet_contains SLIDERS piece then
          let a := if is_diag_slider piece then
            0 ||| (tgt f true occupancy.all &&& ssFromSquare square) else 0
          if is_line_slider piece then
            a ||| (tgt f false occupancy.all &&& ssFromSquare square) else a
        else possible_captures piece f &&& ssFromSquare square
      attacks ≠ 0 && clear_path occupancy.all f square)

/-- Rust `pinned_pieces` (the simplified implementation: always empty). -/
def pinned_pieces (_bd : Board) (_occupancy : Occupancy) (_king_square : Nat) : Nat := 0

structure SearchState where
  occupancy : Occupancy
  pawns : Nat
  turn : Turn
  king_square : Nat
  in_check : Bool
  pinned : Nat

/-- Rust `SearchState::new`.  `iter().next().expect("King not found")`
panics when the active side has no king; the junk square 64 here is never
reached on positions satisfying the invariants. -/
def SearchState.new (tgt : Nat → Bool → Nat → Nat) (bd : Board) (turn : Turn) : SearchState :=
  let active := turn.active_color
  let occupancy := Occupancy.from_board bd active
  let pawns := find_piece bd (Piece.from_type_and_color .Pawn active)
  let king_square := (squaresOf (find_piece bd (Piece.from_type_and_color .King active))).headD 64
  { occupancy := occupancy, pawns := pawns, turn := turn, king_square := king_square
    in_check := is_attacked tgt bd king_square occupancy
    pinned := pinned_pieces bd occupancy king_square }

structure CastlingInfo where
  rook : Piece
  king : Piece
  king_side_mask : Nat
  queen_side_mask : Nat
  king_side : (Nat × Nat) × (Nat × Nat)
  queen_side : (Nat × Nat) × (Nat × Nat)

/-- Rust `CastlingInfo::new`. -/
def CastlingInfo.new (color : Color) : CastlingInfo :=
  { rook := Piece.from_type_and_color .Rook color
    king := Piece.from_type_and_color .King color
    king_side_mask := if color = .White then 1 else 4
    queen_side_mask := if color = .White then 2 else 8
    king_side := if color = .White then ((4, 6), (7, 5)) else ((60, 62), (63, 61))
    queen_side := if color = .White then ((4, 2), (0, 3)) else ((60, 58), (56, 59)) }

def get_castling_info (color : Color) : CastlingInfo := CastlingInfo.new color

/-- Rust `expand_promos`: the loop body's `mv.kind as u8 - i` selector. -/
def promo_kind_of_index : Nat → Option MoveKind
  | 11 => some .QueenPromotion
  | 10 => some .RookPromotion
  | 9 => some .BishopPromotion
  | 8 => some .KnightPromotion
  | 15 => some .QueenPromotionCapture
  | 14 => some .RookPromotionCapture
  | 13 => some .BishopPromotionCapture
  | 12 => some .KnightPromotionCapture
  | _ => none

/-- Rust `expand_promos` (callers pass kind `QueenPromotion` = 11 or
`QueenPromotionCapture` = 15, so the u8 subtraction never underflows). -/
def expand_promos (piece : Piece) (mv : Move) : List (Piece × Move) :=
  (List.range 4).filterMap (fun i =>
    (promo_kind_of_index (mv.kind.index - i)).map (fun k =>
      (piece, { from_sq := mv.from_sq, to_sq := mv.to_sq, kind := k })))

/-- Rust `shift_pawns_forward`. -/
def shift_pawns_forward (pawns : Nat) (white : Bool) : Nat :=
  if white then (pawns <<< 8) &&& U64_MASK else pawns >>> 8

/-- Rust `shift_square_backward` (the usize subtraction underflows, i.e.
panics, only for a white target below rank 1, which no pawn shift
produces). -/
def shift_square_backward (square : Nat) (white : Bool) : Nat :=
  let new_index := if white then square - 8 else square + 8
  make_square (new_index % 8) (new_index / 8)

/-- Rust `find_pawn_pushes`, as the list of `(piece, move)` pairs passed to
`fun` in emission order.  Note the masks `rank(2)` / `rank(5)` taken from
the source. -/
def find_pawn_pushes (state : SearchState) : List (Piece × Move) :=
  let white := state.turn.active_color = Color.White
  let double_push_rank := if white then ssRank 2 else ssRank 5
  let promo_rank := if white then ssRank 7 else ssRank 0
  let free := ssNot state.occupancy.all
  let singles := shift_pawns_forward state.pawns white &&& free
  let doubles := shift_pawns_forward singles white &&& free &&& double_push_rank
  let piece := if white then Piece.P else Piece.p
  (squaresOf (singles &&& ssNot promo_rank)).map (fun t =>
    (piece, { from_sq := shift_square_backward t white, to_sq := t, kind := .QuietMove }))
  ++ (squaresOf (singles &&& promo_rank)).flatMap (fun t =>
    expand_promos piece
      { from_sq := shift_square_backward t white, to_sq := t, kind := .QueenPromotion })
  ++ (squaresOf doubles).map (fun t =>
    (piece, { from_sq := shift_square_backward (shift_square_backward t white) white
              to_sq := t, kind := .DoublePush }))

/-- Rust `shift_pawn_capture_left`. -/
def shift_pawn_capture_left (pawns : Nat) (white : Bool) : Nat :=
  if white then ((pawns &&& 0xfefefefefefefefe) <<< 7) &&& U64_MASK
  else (pawns &&& 0xfefefefefefefefe) >>> 9

/-- Rust `shift_pawn_capture_right`. -/
def shift_pawn_capture_right (pawns : Nat) (white : Bool) : Nat :=
  if white then ((pawns &&& 0x7f7f7f7f7f7f7f7f) <<< 9) &&& U64_MASK
  else (pawns &&& 0x7f7f7f7f7f7f7f7f) >>> 7

/-- Rust `capture_square_origin_left`. -/
def capture_square_origin_left (t : Nat) (white : Bool) : Nat :=
  let from_index := if white then t - 7 else t + 9
  make_square (from_index % 8) (from_index / 8)

/-- Rust `capture_square_origin_right`. -/
def capture_square_origin_right (t : Nat) (white : Bool) : Nat :=
  let from_index := if white then t - 9 else t + 7
  make_square (from_index % 8) (from_index / 8)

/-- Rust `find_pawn_captures`. -/
def find_pawn_captures (state : SearchState) : List (Piece × Move) :=
  let white := state.turn.active_color = Color.White
  let promo_rank := if white then ssRank 7 else ssRank 0
  let left_pawns := state.pawns &&& ssNot (ssFile 0)
  let right_pawns := state.pawns &&& ssNot (ssFile 7)
  let left := shift_pawn_capture_left left_pawns white &&& state.occupancy.theirs
  let right := shift_pawn_capture_right right_pawns white &&& state.occupancy.theirs
  let piece := if white then Piece.P else Piece.p
  (squaresOf (left &&& ssNot promo_rank)).map (fun t =>
    (piece, { from_sq := capture_square_origin_left t white, to_sq := t, kind := .Capture }))
  ++ (squaresOf (left &&& promo_rank)).flatMap (fun t =>
    expand_promos piece
      { from_sq := capture_square_origin_left t white, to_sq := t
        kind := .QueenPromotionCapture })
  ++ (squaresOf (right &&& ssNot promo_rank)).map (fun t =>
    (piece, { from_sq := capture_square_origin_right t white, to_sq := t, kind := .Capture }))
  ++ (squaresOf (right &&& promo_rank)).flatMap (fun t =>
    expand_promos piece
      { from_sq := capture_square_origin_right t white, to_sq := t
        kind := .QueenPromotionCapture })

/-- Rust `find_non_pawn_moves`. -/
def find_non_pawn_moves (tgt : Nat → Bool → Nat → Nat) (bd : Board) (state : SearchState) :
    List (Piece × Move) :=
  (squaresOf (state.occupancy.ours &&& ssNot state.pawns)).flatMap (fun f =>
    let piece := bd f
    if pieceSet_contains SLIDERS piece && !ssContains state.pinned f && !state.in_check then
      let ts := if is_diag_slider piece then 0 ||| tgt f true state.occupancy.all else 0
      let ts := if is_line_slider piece then ts ||| tgt f false state.occupancy.all else ts
      let ts := ts &&& ssNot state.occupancy.all
      (squaresOf ts).map (fun t => (piece, { from_sq := f, to_sq := t, kind := .QuietMove }))
    else
      let possible_squares := possible_moves piece f &&& ssNot state.occupancy.all
      (squaresOf possible_squares).filterMap (fun t =>
        if clear_path state.occupancy.all f t then
          some (piece, { from_sq := f, to_sq := t, kind := MoveKind.QuietMove })
        else none))

/-- Rust `find_moves`. -/
def find_moves (tgt : Nat → Bool → Nat → Nat) (bd : Board) (state : SearchState) :
    List (Piece × Move) :=
  find_pawn_pushes state ++ find_non_pawn_moves tgt bd state

/-- Rust `find_castles`.  `Square::B1` (square 1) appears in the queen-side
empty-square check for both colors, exactly as in the source. -/
def find_castles (state : SearchState) : List (Piece × Move) :=
  if state.in_check then []
  else
    let color := state.turn.active_color
    let info := get_castling_info color
    let castling := state.turn.castling
    let ks :=
      if castling &&& info.king_side_mask ≠ 0 then
        let king_to := info.king_side.1.2
        let rook_to := info.king_side.2.2
        let clear_squares := ssFromSquare rook_to ||| ssFromSquare king_to
        if state.occupancy.all &&& clear_squares = 0 then
          [(info.king, { from_sq := info.king_side.1.1, to_sq := info.king_side.1.2
                         kind := MoveKind.OO })]
        else []
      else []
    let qs :=
      if castling &&& info.queen_side_mask ≠ 0 then
        let king_to := info.queen_side.1.2
        let rook_to := info.queen_side.2.2
        let clear_squares := ssFromSquare rook_to ||| ssFromSquare king_to ||| ssFromSquare 1
        if state.occupancy.all &&& clear_squares = 0 then
          [(info.king, { from_sq := info.queen_side.1.1, to_sq := info.queen_side.1.2
                         kind := MoveKind.OOO })]
        else []
      else []
    ks ++ qs

/-- Rust `find_non_pawn_captures`. -/
def find_non_pawn_captures (tgt : Nat → Bool → Nat → Nat) (bd : Board) (state : SearchState) :
    List (Piece × Move) :=
  (squaresOf (state.occupancy.ours &&& ssNot state.pawns)).flatMap (fun f =>
    let piece := bd f
    if pieceSet_contains SLIDERS piece && !ssContains state.pinned f && !state.in_check then
      let ts := if is_diag_slider piece then 0 ||| tgt f true state.occupancy.all else 0
      let ts := if is_line_slider piece then ts ||| tgt f false state.occupancy.all else ts
      let ts := ts &&& state.occupancy.theirs
      (squaresOf ts).map (fun t => (piece, { from_sq := f, to_sq := t, kind := .Capture }))
    else
      let possible_squares := possible_captures piece f &&& state.occupancy.theirs
      (squaresOf possible_squares).filterMap (fun t =>
        if clear_path state.occupancy.all f t then
          some (piece, { from_sq := f, to_sq := t, kind := MoveKind.Capture })
        else none))

/-- Rust `find_captures`. -/
def find_captures (tgt : Nat → Bool → Nat → Nat) (bd : Board) (state : SearchState) :
    List (Piece × Move) :=
  find_pawn_captures state ++ find_non_pawn_captures tgt bd state

/-- Rust `find_en_passant`.  `turn.en_passant().is_none()` tests the
`NO_EN_PASSANT_TARGET` (= A1) sentinel of the `fen` crate. -/
def find_en_passant (bd : Board) (turn : Turn) : List (Piece × Move) :=
  let en_passant_target := turn.en_passant
  if en_passant_target = NO_EN_PASSANT_TARGET then []
  else
    let active := turn.active_color
    let pawn := Piece.from_type_and_color .Pawn active
    let target_file := squareFile en_passant_target
    let pawn_rank := if active = Color.White then 4 else 3
    let l :=
      if target_file > 0 then
        let f := make_square (target_file - 1) pawn_rank
        if bd f = pawn then
          [(pawn, { from_sq := f, to_sq := en_passant_target, kind := MoveKind.EnPassant })]
        else []
      else []
    let r :=
      if target_file < 7 then
        let f := make_square (target_file + 1) pawn_rank
        if bd f = pawn then
          [(pawn, { from_sq := f, to_sq := en_passant_target, kind := MoveKind.EnPassant })]
        else []
      else []
    l ++ r

/-- Rust `does_not_check`: applies `mv` to the board it is given (in the
generator that board has already had `mv` applied once), tests for attack,
then unmakes its own application.  Returns the verdict and the board as
left behind by that unmake. -/
def does_not_check (tgt : Nat → Bool → Nat → Nat) (bd : Board) (state : SearchState)
    (mv : Move) : Bool × Board :=
  let (bd2, change) := make_move bd mv
  let new_occupancy := Occupancy.from_board bd2 state.turn.active_color
  let check_square := if mv.from_sq = state.king_square then mv.to_sq else state.king_square
  let result := !is_attacked tgt bd2 check_square new_occupancy
  (result, unmake_move_board bd2 change)

/-- The `do_move` closure of Rust `for_all_legal_moves_and_captures`: make
the move on the threaded board, run `does_not_check` (which makes it a
second time), emit if the verdict is positive, then unmake once more.  The
threaded board carries over from one candidate to the next, exactly as
`board_mut` does in the source. -/
def do_move (tgt : Nat → Bool → Nat → Nat) (state : SearchState)
    (acc : Board × List MoveWithPieces) (cand : Piece × Move) : Board × List MoveWithPieces :=
  let (bd2, change) := make_move acc.1 cand.2
  let (ok, bd3) := does_not_check tgt bd2 state cand.2
  let out := if ok then
    acc.2 ++ [{ mv := cand.2, piece := cand.1, captured := change.captured }]
  else acc.2
  (unmake_move_board bd3 change, out)

/-- Rust `for_all_legal_moves_and_captures`: candidates are generated from
the pristine `board_ref` clone and fed to `do_move` in source order. -/
def for_all_legal_moves_and_captures (tgt : Nat → Bool → Nat → Nat) (bd : Board)
    (state : SearchState) : Board × List MoveWithPieces :=
  (find_captures tgt bd state ++ find_en_passant bd state.turn
      ++ find_moves tgt bd state ++ find_castles state).foldl
    (do_move tgt state) (bd, [])

/-- Rust `all_legal_moves_and_captures`. -/
def all_legal_moves_and_captures (tgt : Nat → Bool → Nat → Nat) (turn : Turn) (bd : Board) :
    List Move :=
  ((for_all_legal_moves_and_captures tgt bd (SearchState.new tgt bd turn)).2).map
    (fun mwp => mwp.mv)

/-- Rust `all_legal_moves`. -/
def all_legal_moves (tgt : Nat → Bool → Nat → Nat) (turn : Turn) (bd : Board) : List Move :=
  (all_legal_moves_and_captures tgt turn bd).filter (fun mv => !mv.kind.is_capture)

/-- Rust `all_legal_captures`. -/
def all_legal_captures (tgt : Nat → Bool → Nat → Nat) (turn : Turn) (bd : Board) : List Move :=
  (all_legal_moves_and_captures tgt turn bd).filter (fun mv => mv.kind.is_capture)

/-- Rust `perft` (perft/src/perft.rs). -/
def perft (tgt : Nat → Bool → Nat → Nat) (position : Position) : Nat → Nat
  | 0 => 1
  | depth + 1 =>
    (all_legal_moves_and_captures tgt position.turn position.board).foldl
      (fun nodes mv => nodes + perft tgt (apply_move position mv) depth) 0

/-! # fen/src/fen.rs

Strings are embedded as `List Char`; `Result<T, ParseError>` as
`Except String T` (the `ParseError` carries only its message). -/

/-- `str::split(sep)`: split at every separator, keeping empty pieces. -/
def splitPred (p : Char → Bool) (l : List Char) : List (List Char) :=
  l.foldr
    (fun c acc =>
      if p c then [] :: acc
      else match acc with
        | [] => [[c]]
        | h :: t => (c :: h) :: t)
    [[]]

/-- `str::split_whitespace`: the non-empty pieces between whitespace runs. -/
def split_whitespace (l : List Char) : List (List Char) :=
  (splitPred Char.isWhitespace l).filter (fun part => part ≠ [])

/-- The inner loop of Rust `board_to_string` over one rank's files: emit a
pending empty-run count before each piece and at the end of the rank. -/
def rankCharsAux (bd : Board) (rank : Nat) (empty_count : Nat) : List Nat → List Char
  | [] => if empty_count > 0 then [Char.ofNat (48 + empty_count)] else []
  | file :: rest =>
    let piece := bd (make_square file rank)
    if piece = Piece.Empty then rankCharsAux bd rank (empty_count + 1) rest
    else
      (if empty_count > 0 then [Char.ofNat (48 + empty_count)] else [])
        ++ [piece.to_char] ++ rankCharsAux bd rank 0 rest

/-- Rust `board_to_string`: ranks 8 down to 1, `/`-separated. -/
def board_to_string (bd : Board) : List Char :=
  ([7, 6, 5, 4, 3, 2, 1].foldr
    (fun rank acc => rankCharsAux bd rank 0 (List.range 8) ++ '/' :: acc)
    [])
  ++ rankCharsAux bd 0 0 (List.range 8)

/-- Decimal digits of `n`, most significant first, as Rust `Display` for
the unsigned integer types prints them (20 digits cover all u64 values). -/
def natDigitsAux : Nat → Nat → List Char
  | 0, _ => []
  | fuel + 1, n =>
    if n = 0 then []
    else natDigitsAux fuel (n / 10) ++ [Char.ofNat (48 + n % 10)]

def natToString (n : Nat) : List Char :=
  if n = 0 then ['0'] else natDigitsAux 20 n

/-- `Square`'s `Display`: file letter then rank digit. -/
def squareToString (s : Nat) : List Char :=
  [Char.ofNat (97 + squareFile s), Char.ofNat (49 + squareRank s)]

/-- The castling field printed by Rust `position_to_string`. -/
def castlingToString (castling : Nat) : List Char :=
  if castling = 0 then ['-']
  else (if castling &&& cmK ≠ 0 then ['K'] else [])
    ++ (if castling &&& cmQ ≠ 0 then ['Q'] else [])
    ++ (if castling &&& cmk ≠ 0 then ['k'] else [])
    ++ (if castling &&& cmq ≠ 0 then ['q'] else [])

/-- The en-passant field printed by Rust `position_to_string`. -/
def epToString (en_passant_square : Nat) : List Char :=
  if en_passant_square = NO_EN_PASSANT_TARGET then ['-']
  else squareToString en_passant_square

/-- Rust `position_to_string`. -/
def position_to_string (position : Position) : List Char :=
  board_to_string position.board
    ++ ' ' :: (if position.turn.active_color = Color.White then ['w'] else ['b'])
    ++ ' ' :: castlingToString position.turn.castling
    ++ ' ' :: epToString position.turn.en_passant
    ++ ' ' :: natToString position.turn.halfmove
    ++ ' ' :: natToString position.turn.fullmove

/-- The inner loop of Rust `parse_piece_placement` over one rank's
characters, threading the file counter. -/
def parseRank (bd : Board) (rank : Nat) : Nat → List Char → Except String (Board × Nat)
  | file, [] => Except.ok (bd, file)
  | file, c :: rest =>
    if file ≥ 8 then Except.error ("Too many pieces/numbers in rank")
    else if c.isDigit then
      let empty_squares := c.toNat - 48
      if empty_squares = 0 ∨ empty_squares > 8 then
        Except.error ("Invalid empty square count")
      else parseRank bd rank (file + empty_squares) rest
    else match Piece.from_char c with
      | some piece =>
        if piece = Piece.Empty then Except.error ("Unexpected empty piece character")
        else parseRank (boardSet bd (make_square file rank) piece) rank (file + 1) rest
      | none => Except.error ("Invalid piece character")

/-- The outer loop of Rust `parse_piece_placement` over the 8 ranks. -/
def parseRanks (bd : Board) : Nat → List (List Char) → Except String Board
  | _, [] => Except.ok bd
  | rank_index, r :: rest =>
    match parseRank bd (7 - rank_index) 0 r with
    | Except.error e => Except.error e
    | Except.ok (bd2, file) =>
      if file ≠ 8 then Except.error ("Incomplete rank")
      else parseRanks bd2 (rank_index + 1) rest

/-- Rust `parse_piece_placement`. -/
def parse_piece_placement (piece_placement : List Char) : Except String Board :=
  let ranks := splitPred (fun c => c = '/') piece_placement
  if ranks.length ≠ 8 then Except.error ("Expected 8 ranks")
  else parseRanks Board.new 0 ranks

/-- Rust `parse_square`: two characters, file `a`..`h`, rank `1`..`8` (no
restriction to the en-passant ranks). -/
def parse_square (square_str : List Char) : Except String Nat :=
  match square_str with
  | [file_char, rank_char] =>
    if ¬('a' ≤ file_char ∧ file_char ≤ 'h') then Except.error ("Invalid file")
    else if ¬('1' ≤ rank_char ∧ rank_char ≤ '8') then Except.error ("Invalid rank")
    else Except.ok (make_square (file_char.toNat - 97) (rank_char.toNat - 49))
  | _ => Except.error ("Invalid square notation")

/-- Rust `str::parse` for `u8` / `u16`: optional leading `+`, at least one
digit, all digits, value within range. -/
def parse_uint (maxv : Nat) (l : List Char) : Except String Nat :=
  let l := match l with
    | '+' :: rest => rest
    | _ => l
  if l = [] then Except.error ("cannot parse integer from empty string")
  else if l.all Char.isDigit then
    let v := l.foldl (fun acc c => acc * 10 + (c.toNat - 48)) 0
    if v ≤ maxv then Except.ok v else Except.error ("number too large")
  else Except.error ("invalid digit found in string")

/-- The castling-field loop of Rust `parse_position`. -/
def parse_castling : Nat → List Char → Except String Nat
  | acc, [] => Except.ok acc
  | acc, c :: rest =>
    if c = 'K' then parse_castling (acc ||| cmK) rest
    else if c = 'Q' then parse_castling (acc ||| cmQ) rest
    else if c = 'k' then parse_castling (acc ||| cmk) rest
    else if c = 'q' then parse_castling (acc ||| cmq) rest
    else Except.error ("Invalid castling character")

/-- The body of Rust `parse_position` after splitting into the six
whitespace-separated fields; the `?` operator of the source is
`Except.bind`. -/
def parse_position_parts (p0 p1 p2 p3 p4 p5 : List Char) : Except String Position :=
  Except.bind (parse_piece_placement p0) (fun board =>
  Except.bind
    (if p1 = ['w'] then Except.ok Color.White
     else if p1 = ['b'] then Except.ok Color.Black
     else Except.error ("Invalid active color")) (fun active_color =>
  Except.bind (if p2 = ['-'] then Except.ok 0 else parse_castling 0 p2) (fun castling_mask =>
  Except.bind
    (if p3 = ['-'] then Except.ok NO_EN_PASSANT_TARGET else parse_square p3)
    (fun en_passant_target =>
  Except.bind
    (match parse_uint 255 p4 with
     | Except.error _ => Except.error ("Invalid halfmove clock")
     | Except.ok v => Except.ok v) (fun halfmove_clock =>
  Except.bind
    (match parse_uint 65535 p5 with
     | Except.error _ => Except.error ("Invalid fullmove number")
     | Except.ok v => Except.ok v) (fun fullmove_number =>
  Except.ok
    { board := board
      turn := { active_color := active_color, castling := castling_mask
                en_passant := en_passant_target, halfmove := halfmove_clock
                fullmove := fullmove_number } }))))))

/-- Rust `parse_position`. -/
def parse_position (fen : List Char) : Except String Position :=
  match split_whitespace fen with
  | [p0, p1, p2, p3, p4, p5] => parse_position_parts p0 p1 p2 p3 p4 p5
  | _ => Except.error ("Expected 6 FEN parts")

/-- Rust `INITIAL_POSITION`. -/
def INITIAL_POSITION : List Char :=
  "rnbqkbnr/pppppppp/8/8/8/8/PPPPPPPP/RNBQKBNR w KQkq - 0 1".toList

/-! ## The move generator against the legality specification
(claims C1, C3, C5, C6, C10) -/

deriving instance DecidableEq for Except

/-- The classical brute-force slider attack function: the ray walk on the
occupancy restricted to the relevant blockers.  By `magic_targets_classical`
this is exactly what `magic::targets` computes for every magic constant that
passes the verification in `Magic::new`, so fixing the generator's `tgt`
parameter to this function models the generator as shipped. -/
def classical_targets (sq : Nat) (isB : Bool) (occ : Nat) : Nat :=
  compute_slider_targets sq isB (occ &&& compute_slider_blockers sq isB)

/-- Rust `INITIAL_POSITION`'s board: the chess starting position. -/
def INITIAL_LIST : List Piece :=
  [Piece.R, .N, .B, .Q, .K, .B, .N, .R,
   .P, .P, .P, .P, .P, .P, .P, .P,
   .Empty, .Empty, .Empty, .Empty, .Empty, .Empty, .Empty, .Empty,
   .Empty, .Empty, .Empty, .Empty, .Empty, .Empty, .Empty, .Empty,
   .Empty, .Empty, .Empty, .Empty, .Empty, .Empty, .Empty, .Empty,
   .Empty, .Empty, .Empty, .Empty, .Empty, .Empty, .Empty, .Empty,
   .p, .p, .p, .p, .p, .p, .p, .p,
   .r, .n, .b, .q, .k, .b, .n, .r]

def INITIAL_BOARD : Board := fun s => INITIAL_LIST.getD s .Empty

/-- White: Ke1, Pd5, Ng1-side knight on h1, Black: Re6, Kh8; White to move
with the en-passant target square set to e6, which the black rook occupies.
Exactly one king of each color is on the board. -/
def boardEpTrap : Board := fun s =>
  if s = 4 then .K else if s = 35 then .P else if s = 7 then .N
  else if s = 44 then .r else if s = 63 then .k else .Empty

def turnEpTrap : Turn :=
  { active_color := .White, castling := 0, en_passant := 44, halfmove := 0, fullmove := 1 }

/-- White: Ke1, Rh1 with king-side castling rights; Black: Rf6, Kc8.  The
black rook attacks f1, the square the white king passes through when
castling king-side; e1 and g1 are not attacked. -/
def boardCastleTrap : Board := fun s =>
  if s = 4 then .K else if s = 7 then .R
  else if s = 45 then .r else if s = 58 then .k else .Empty

def turnCastleTrap : Turn :=
  { active_color := .White, castling := 1, en_passant := 0, halfmove := 0, fullmove := 1 }

set_option maxRecDepth 1000000 in
/-- **C1** Refuted as stated: `all_legal_moves_and_captures` can emit a move
after which the mover's king is attacked, on a position with exactly one
king per color.  Processing the en-passant candidate permanently corrupts
the threaded `board_mut` (`does_not_check` applies the move a second time
and the two unmakes do not restore the pre-move content), erasing the black
rook on e6 and the white pawn on d5; the later quiet push d5-d6, checked
against that corrupted board, is emitted although it leaves the white king
on e1 attacked by that rook. -/
theorem generator_emits_move_leaving_king_attacked (tgt : Nat → Bool → Nat → Nat)
    (htgt : ∀ sq isB occ, tgt sq isB occ = classical_targets sq isB occ) :
    ssLen (find_piece boardEpTrap .K) = 1 ∧ ssLen (find_piece boardEpTrap .k) = 1 ∧
    (⟨35, 43, .QuietMove⟩ : Move) ∈ all_legal_moves_and_captures tgt turnEpTrap boardEpTrap ∧
    is_attacked tgt (make_move boardEpTrap ⟨35, 43, .QuietMove⟩).1
      ((squaresOf (find_piece (make_move boardEpTrap ⟨35, 43, .QuietMove⟩).1
          (Piece.from_type_and_color .King turnEpTrap.active_color))).headD 64)
      (Occupancy.from_board (make_move boardEpTrap ⟨35, 43, .QuietMove⟩).1
        turnEpTrap.active_color) = true := by
  have h : tgt = classical_targets := by
    funext a b c
    exact htgt a b c
  subst h
  decide

theorem generator_emits_move_leaving_king_attacked_witness :
    ssLen (find_piece boardEpTrap .K) = 1 ∧ ssLen (find_piece boardEpTrap .k) = 1 ∧
    (⟨35, 43, .QuietMove⟩ : Move) ∈
      all_legal_moves_and_captures classical_targets turnEpTrap boardEpTrap ∧
    is_attacked classical_targets (make_move boardEpTrap ⟨35, 43, .QuietMove⟩).1
      ((squaresOf (find_piece (make_move boardEpTrap ⟨35, 43, .QuietMove⟩).1
          (Piece.from_type_and_color .King turnEpTrap.active_color))).headD 64)
      (Occupancy.from_board (make_move boardEpTrap ⟨35, 43, .QuietMove⟩).1
        turnEpTrap.active_color) = true :=
  generator_emits_move_leaving_king_attacked classical_targets (fun _ _ _ => rfl)

set_option maxRecDepth 1000000 in
/-- **C3** Refuted as stated: perft of the initial position at depth 1
returns 12, not the specified 20.  The eight double pawn pushes are missing
because `find_pawn_pushes` masks double-push destinations with rank 2
(0-indexed) instead of rank 3 for White — see C5 — so only the eight single
pushes and four knight moves are generated. -/
theorem perft_initial_position_depth_one (tgt : Nat → Bool → Nat → Nat)
    (htgt : ∀ sq isB occ, tgt sq isB occ = classical_targets sq isB occ) :
    (parse_position INITIAL_POSITION).map (fun p => perft tgt p 1) = Except.ok 12 := by
  have h : tgt = classical_targets := by
    funext a b c
    exact htgt a b c
  subst h
  decide

theorem perft_initial_position_depth_one_witness :
    (parse_position INITIAL_POSITION).map (fun p => perft classical_targets p 1)
      = Except.ok 12 :=
  perft_initial_position_depth_one classical_targets (fun _ _ _ => rfl)

set_option maxRecDepth 1000000 in
/-- **C5** Refuted as stated: in the initial position the white pawn on e2
(square 12) stands on its initial rank with e3 and e4 empty, yet neither
`find_pawn_pushes` nor the full generator emits any `DoublePush` move at
all.  The mask `rank(2)` (squares 16..23) can never contain the shift of a
single push from rank 1, so `doubles` is always empty for pawns on their
initial rank (the spec requires mask rank 3 for White, rank 4 for Black). -/
theorem no_double_push_from_initial_position (tgt : Nat → Bool → Nat → Nat)
    (htgt : ∀ sq isB occ, tgt sq isB occ = classical_targets sq isB occ) :
    INITIAL_BOARD 12 = Piece.P ∧ INITIAL_BOARD 20 = Piece.Empty ∧
    INITIAL_BOARD 28 = Piece.Empty ∧
    (find_pawn_pushes (SearchState.new tgt INITIAL_BOARD Turn.initial)).all
      (fun pm => pm.2.kind != MoveKind.DoublePush) = true ∧
    (all_legal_moves_and_captures tgt Turn.initial INITIAL_BOARD).all
      (fun mv => mv.kind != MoveKind.DoublePush) = true := by
  have h : tgt = classical_targets := by
    funext a b c
    exact htgt a b c
  subst h
  decide

theorem no_double_push_from_initial_position_witness :
    INITIAL_BOARD 12 = Piece.P ∧ INITIAL_BOARD 20 = Piece.Empty ∧
    INITIAL_BOARD 28 = Piece.Empty ∧
    (find_pawn_pushes (SearchState.new classical_targets INITIAL_BOARD Turn.initial)).all
      (fun pm => pm.2.kind != MoveKind.DoublePush) = true ∧
    (all_legal_moves_and_captures classical_targets Turn.initial INITIAL_BOARD).all
      (fun mv => mv.kind != MoveKind.DoublePush) = true :=
  no_double_push_from_initial_position classical_targets (fun _ _ _ => rfl)

set_option maxRecDepth 1000000 in
/-- **C6** Refuted as stated: the generator emits a king-side castle whose
transit square f1 (square 5) is attacked by the black rook on f6 in the
pre-move position.  `find_castles` checks only that f1 and g1 are empty and
that the king is not currently in check; `does_not_check` cannot reject the
move either, because it tests only the king's destination square, on a board
from which its double application has erased both the king and the rook. -/
theorem castle_emitted_through_attacked_transit (tgt : Nat → Bool → Nat → Nat)
    (htgt : ∀ sq isB occ, tgt sq isB occ = classical_targets sq isB occ) :
    boardCastleTrap 5 = Piece.Empty ∧ boardCastleTrap 6 = Piece.Empty ∧
    (⟨4, 6, .OO⟩ : Move) ∈ all_legal_moves_and_captures tgt turnCastleTrap boardCastleTrap ∧
    is_attacked tgt boardCastleTrap 5
      (Occupancy.from_board boardCastleTrap turnCastleTrap.active_color) = true := by
  have h : tgt = classical_targets := by
    funext a b c
    exact htgt a b c
  subst h
  decide

theorem castle_emitted_through_attacked_transit_witness :
    boardCastleTrap 5 = Piece.Empty ∧ boardCastleTrap 6 = Piece.Empty ∧
    (⟨4, 6, .OO⟩ : Move) ∈
      all_legal_moves_and_captures classical_targets turnCastleTrap boardCastleTrap ∧
    is_attacked classical_targets boardCastleTrap 5
      (Occupancy.from_board boardCastleTrap turnCastleTrap.active_color) = true :=
  castle_emitted_through_attacked_transit classical_targets (fun _ _ _ => rfl)

/-- **C10** Confirmed: `all_legal_moves` is exactly the non-capture part of
`all_legal_moves_and_captures` and `all_legal_captures` exactly the capture
part; the two lists partition the full legal-move list, and despite its name
`all_legal_moves` never contains a capture, an en-passant (kind index 5,
capture bit set) or a capture-promotion (kind indices 12..15). -/
theorem all_legal_moves_partition (tgt : Nat → Bool → Nat → Nat) (turn : Turn) (bd : Board) :
    (∀ mv, mv ∈ all_legal_moves tgt turn bd ↔
      mv ∈ all_legal_moves_and_captures tgt turn bd ∧ mv.kind.is_capture = false) ∧
    (∀ mv, mv ∈ all_legal_captures tgt turn bd ↔
      mv ∈ all_legal_moves_and_captures tgt turn bd ∧ mv.kind.is_capture = true) ∧
    (∀ mv, mv ∈ all_legal_moves tgt turn bd →
      mv.kind ≠ MoveKind.EnPassant ∧ mv.kind ≠ MoveKind.KnightPromotionCapture ∧
      mv.kind ≠ MoveKind.BishopPromotionCapture ∧ mv.kind ≠ MoveKind.RookPromotionCapture ∧
      mv.kind ≠ MoveKind.QueenPromotionCapture) ∧
    (all_legal_moves tgt turn bd).length + (all_legal_captures tgt turn bd).length
      = (all_legal_moves_and_captures tgt turn bd).length := by
  refine ⟨?_, ?_, ?_, ?_⟩
  · intro mv
    rw [all_legal_moves, List.mem_filter]
    simp
  · intro mv
    rw [all_legal_captures, List.mem_filter]
  · intro mv hm
    rw [all_legal_moves, List.mem_filter] at hm
    have hc : mv.kind.is_capture = false := by
      rcases hm with ⟨_, h⟩
      simpa using h
    refine ⟨?_, ?_, ?_, ?_, ?_⟩ <;>
      intro hk <;> rw [hk] at hc <;> exact absurd hc (by decide)
  · rw [all_legal_moves, all_legal_captures, Nat.add_comm]
    exact (List.length_eq_length_filter_add _).symm

/-! ## FEN parsing of the en-passant field (claim C9) -/

/-- **C9** Refuting counterexample: a FEN record whose en-passant field is
`e4` — a square on rank 4, which can never be an en-passant target — is
accepted by `parse_position`, which returns a Position with that target
(square 28) instead of a parse error: `parse_square` checks only that the
file is `a`..`h` and the rank `1`..`8`. -/
theorem parse_position_accepts_rank_four_en_passant :
    (parse_position ("4k3/8/8/8/8/8/8/4K3 w - e4 0 1".toList)).map
      (fun p => p.turn.en_passant) = Except.ok 28 := by decide

/-- **C9** What the code actually guarantees (amended): a successful
`parse_square` means only that the field is two characters, a file letter
`a`..`h` followed by a rank digit `1`..`8` — any rank, not just 3 or 6 —
and the result is the denoted square. -/
theorem parse_square_validates_file_and_rank_only (l : List Char) (v : Nat)
    (h : parse_square l = Except.ok v) :
    ∃ fc rc, l = [fc, rc] ∧ 'a' ≤ fc ∧ fc ≤ 'h' ∧ '1' ≤ rc ∧ rc ≤ '8' ∧
      v = make_square (fc.toNat - 97) (rc.toNat - 49) := by
  match l with
  | [] => simp [parse_square] at h
  | [_] => simp [parse_square] at h
  | _ :: _ :: _ :: _ => simp [parse_square] at h
  | [fc, rc] =>
    rw [parse_square] at h
    split_ifs at h with h1 h2
    rw [Except.ok.injEq] at h
    exact ⟨fc, rc, rfl, h1.1, h1.2, h2.1, h2.2, h.symm⟩

theorem parse_square_validates_file_and_rank_only_witness :
    ∃ fc rc, ("e6".toList : List Char) = [fc, rc] ∧ 'a' ≤ fc ∧ fc ≤ 'h' ∧
      '1' ≤ rc ∧ rc ≤ '8' ∧ 44 = make_square (fc.toNat - 97) (rc.toNat - 49) :=
  parse_square_validates_file_and_rank_only ("e6".toList) 44 (by decide)

/-! ## Print / parse round trip (claim C7) -/

theorem char_digit_toNat (d : Nat) (hd : d < 10) : (Char.ofNat (48 + d)).toNat = 48 + d := by
  interval_cases d <;> decide

theorem char_digit_isDigit (d : Nat) (hd : d < 10) : (Char.ofNat (48 + d)).isDigit = true := by
  interval_cases d <;> decide

theorem char_digit_ne_plus (d : Nat) (hd : d < 10) : Char.ofNat (48 + d) ≠ '+' := by
  interval_cases d <;> decide

theorem char_digit_not_ws (d : Nat) (hd : d < 10) :
    (Char.ofNat (48 + d)).isWhitespace = false := by
  interval_cases d <;> decide

theorem natDigitsAux_all_digits :
    ∀ fuel n, (natDigitsAux fuel n).all Char.isDigit = true := by
  intro fuel
  induction fuel with
  | zero => intro n; rfl
  | succ m ih =>
    intro n
    rw [natDigitsAux]
    split_ifs with h
    · rfl
    · rw [List.all_append, ih (n / 10)]
      simp [char_digit_isDigit (n % 10) (Nat.mod_lt _ (by omega))]

theorem natDigitsAux_ne_nil (fuel n : Nat) (hn : n ≠ 0) :
    natDigitsAux (fuel + 1) n ≠ [] := by
  rw [natDigitsAux, if_neg hn]
  simp

theorem natDigitsAux_foldl :
    ∀ fuel n a, n < 10 ^ fuel →
      (natDigitsAux fuel n).foldl (fun acc c => acc * 10 + (c.toNat - 48)) a
        = a * 10 ^ (natDigitsAux fuel n).length + n := by
  intro fuel
  induction fuel with
  | zero =>
    intro n a h
    have : n = 0 := by simpa using h
    subst this
    simp [natDigitsAux]
  | succ m ih =>
    intro n a h
    rw [natDigitsAux]
    split_ifs with h0
    · subst h0
      simp
    · rw [List.foldl_append, List.foldl_cons, List.foldl_nil,
        ih (n / 10) a (by omega), char_digit_toNat (n % 10) (Nat.mod_lt _ (by omega)),
        List.length_append]
      have hlen : (natDigitsAux m (n / 10)).length + [Char.ofNat (48 + n % 10)].length
          = (natDigitsAux m (n / 10)).length + 1 := by simp
      rw [hlen, pow_succ]
      have : 48 + n % 10 - 48 = n % 10 := by omega
      rw [this]
      have hmod := Nat.mod_add_div n 10
      ring_nf
      omega

/-- The match on an optional leading `+` in `parse_uint` is the identity on
digit strings. -/
theorem parse_uint_strip_digits (l : List Char) :
    l.all Char.isDigit = true →
    (match l with
      | '+' :: rest => rest
      | _ => l) = l := by
  match l with
  | [] => intro _; rfl
  | c :: t =>
    intro hl
    rw [List.all_cons, Bool.and_eq_true] at hl
    have hc : c ≠ '+' := by
      intro h
      rw [h] at hl
      exact absurd hl.1 (by decide)
    split
    · rename_i heq
      cases heq
      exact absurd rfl hc
    · rfl

theorem parse_uint_natToString (maxv n : Nat) (hle : n ≤ maxv) (hn : n < 10 ^ 20) :
    parse_uint maxv (natToString n) = Except.ok n := by
  rw [natToString]
  split_ifs with h0
  · subst h0
    rw [parse_uint]
    rw [if_neg (by decide), if_pos (by decide)]
    · simp [hle]
    · intro rest hrest
      simp at hrest
  · have hdig := natDigitsAux_all_digits 20 n
    rw [parse_uint,
      if_neg (by simpa using natDigitsAux_ne_nil 19 n h0), if_pos hdig]
    · simp only []
      rw [natDigitsAux_foldl 20 n 0 hn, Nat.zero_mul, Nat.zero_add, if_pos hle]
    · intro rest hrest
      rw [hrest, List.all_cons, Bool.and_eq_true] at hdig
      exact absurd hdig.1 (by decide)

theorem splitPred_cons_sep (p : Char → Bool) (sep : Char) (l : List Char) (hs : p sep = true) :
    splitPred p (sep :: l) = [] :: splitPred p l := by
  rw [splitPred, List.foldr_cons, hs]
  rfl

theorem splitPred_cons_not (p : Char → Bool) (c : Char) (l : List Char) (hc : p c = false) :
    splitPred p (c :: l) = match splitPred p l with
      | [] => [[c]]
      | h :: t => (c :: h) :: t := by
  rw [splitPred, List.foldr_cons, hc]
  rfl

theorem splitPred_ne_nil (p : Char → Bool) : ∀ l, splitPred p l ≠ [] := by
  intro l
  induction l with
  | nil => exact (by decide : ([[]] : List (List Char)) ≠ [])
  | cons c t ih =>
    by_cases hc : p c = true
    · rw [splitPred_cons_sep p c t hc]
      simp
    · rw [splitPred_cons_not p c t (by simpa using hc)]
      split <;> simp

theorem splitPred_append_sep (p : Char → Bool) (sep : Char) (hs : p sep = true) :
    ∀ l1 l2, (∀ c ∈ l1, p c = false) →
      splitPred p (l1 ++ sep :: l2) = l1 :: splitPred p l2 := by
  intro l1
  induction l1 with
  | nil =>
    intro l2 _
    rw [List.nil_append, splitPred_cons_sep p sep l2 hs]
  | cons c t ih =>
    intro l2 hfree
    rw [List.cons_append, splitPred_cons_not p c _ (hfree c (List.mem_cons_self c _)),
      ih l2 (fun d hd => hfree d (List.mem_cons_of_mem c hd))]

theorem splitPred_no_sep (p : Char → Bool) :
    ∀ l, (∀ c ∈ l, p c = false) → splitPred p l = [l] := by
  intro l
  induction l with
  | nil => intro _; rfl
  | cons c t ih =>
    intro hfree
    rw [splitPred_cons_not p c t (hfree c (List.mem_cons_self c _)),
      ih (fun d hd => hfree d (List.mem_cons_of_mem c hd))]

theorem char_digit_ne_slash (d : Nat) (hd : d < 10) : Char.ofNat (48 + d) ≠ '/' := by
  interval_cases d <;> decide

theorem to_char_not_ws (piece : Piece) (h : piece ≠ .Empty) :
    piece.to_char.isWhitespace = false := by
  cases piece <;> first | exact absurd rfl h | decide

theorem to_char_ne_slash (piece : Piece) (h : piece ≠ .Empty) : piece.to_char ≠ '/' := by
  cases piece <;> first | exact absurd rfl h | decide

theorem to_char_not_digit (piece : Piece) (h : piece ≠ .Empty) :
    piece.to_char.isDigit = false := by
  cases piece <;> first | exact absurd rfl h | decide

theorem from_char_to_char (piece : Piece) (h : piece ≠ .Empty) :
    Piece.from_char piece.to_char = some piece := by
  cases piece <;> first | exact absurd rfl h | decide

theorem rankCharsAux_chars (bd : Board) (rank : Nat) :
    ∀ files ec, ec + files.length ≤ 8 →
      ∀ c ∈ rankCharsAux bd rank ec files, c.isWhitespace = false ∧ c ≠ '/' := by
  intro files
  induction files with
  | nil =>
    intro ec hec c hc
    rw [List.length_nil] at hec
    rw [rankCharsAux] at hc
    split_ifs at hc with h
    · rw [List.mem_singleton] at hc
      subst hc
      exact ⟨char_digit_not_ws ec (by omega), char_digit_ne_slash ec (by omega)⟩
    · cases hc
  | cons f rest ih =>
    intro ec hec c hc
    rw [List.length_cons] at hec
    rw [rankCharsAux] at hc
    by_cases h : bd (make_square f rank) = Piece.Empty
    · rw [if_pos h] at hc
      exact ih (ec + 1) (by omega) c hc
    · rw [if_neg h, List.append_assoc, List.mem_append] at hc
      rcases hc with hc | hc
      · by_cases h2 : ec > 0
        · rw [if_pos h2, List.mem_singleton] at hc
          subst hc
          exact ⟨char_digit_not_ws ec (by omega), char_digit_ne_slash ec (by omega)⟩
        · rw [if_neg h2] at hc
          cases hc
      · rw [List.mem_append] at hc
        rcases hc with hc | hc
        · rw [List.mem_singleton] at hc
          subst hc
          exact ⟨to_char_not_ws _ h, to_char_ne_slash _ h⟩
        · exact ih 0 (by omega) c hc

theorem rankCharsAux_ne_nil (bd : Board) (rank : Nat) :
    ∀ files ec, 0 < ec + files.length → rankCharsAux bd rank ec files ≠ [] := by
  intro files
  induction files with
  | nil =>
    intro ec hec
    rw [List.length_nil] at hec
    rw [rankCharsAux, if_pos (by omega)]
    simp
  | cons f rest ih =>
    intro ec _
    rw [rankCharsAux]
    by_cases h : bd (make_square f rank) = Piece.Empty
    · rw [if_pos h]
      exact ih (ec + 1) (by omega)
    · rw [if_neg h]
      simp

/-- The board content written by parsing one printed rank: the non-empty
pieces of `bd`'s `rank` at the given files. -/
def writeRank (bd : Board) (rank : Nat) (bdAcc : Board) (files : List Nat) : Board :=
  files.foldl
    (fun b fl =>
      if bd (make_square fl rank) ≠ Piece.Empty then
        boardSet b (make_square fl rank) (bd (make_square fl rank))
      else b)
    bdAcc

theorem parseRank_digit (bdAcc : Board) (rank fl ec : Nat) (rest : List Char)
    (hfl : fl < 8) (hec0 : 0 < ec) (hec8 : ec ≤ 8) :
    parseRank bdAcc rank fl (Char.ofNat (48 + ec) :: rest)
      = parseRank bdAcc rank (fl + ec) rest := by
  rw [parseRank, if_neg (by omega : ¬fl ≥ 8), if_pos (char_digit_isDigit ec (by omega))]
  simp only [char_digit_toNat ec (by omega)]
  rw [if_neg (by omega)]
  have h : 48 + ec - 48 = ec := by omega
  rw [h]

theorem parseRank_piece (bdAcc : Board) (rank fl : Nat) (piece : Piece) (rest : List Char)
    (hfl : fl < 8) (hp : piece ≠ .Empty) :
    parseRank bdAcc rank fl (piece.to_char :: rest)
      = parseRank (boardSet bdAcc (make_square fl rank) piece) rank (fl + 1) rest := by
  rw [parseRank, if_neg (by omega : ¬fl ≥ 8),
    if_neg (by simp [to_char_not_digit piece hp]), from_char_to_char piece hp]
  exact if_neg hp


/-- Round trip for one rank: parsing the printed rank replays exactly the
rank's pieces onto the accumulated board and ends at file 8. -/
theorem parseRank_roundtrip (bd : Board) (rank : Nat) :
    ∀ k f ec bdAcc, f + k = 8 → ec ≤ f →
      parseRank bdAcc rank (f - ec) (rankCharsAux bd rank ec (List.range' f k))
        = Except.ok (writeRank bd rank bdAcc (List.range' f k), 8) := by
  intro k
  induction k with
  | zero =>
    intro f ec bdAcc hf hec
    have hf8 : f = 8 := by omega
    subst hf8
    rw [show List.range' 8 0 = ([] : List Nat) from rfl, rankCharsAux, writeRank,
      List.foldl_nil]
    split_ifs with h
    · rw [parseRank_digit bdAcc rank (8 - ec) ec [] (by omega) h (by omega)]
      have h2 : 8 - ec + ec = 8 := by omega
      rw [h2, parseRank]
    · have h0 : ec = 0 := by omega
      subst h0
      rw [parseRank]
  | succ k ih =>
    intro f ec bdAcc hf hec
    rw [show List.range' f (k + 1) = f :: List.range' (f + 1) k from rfl, rankCharsAux,
      writeRank, List.foldl_cons]
    by_cases h : bd (make_square f rank) = Piece.Empty
    · rw [if_pos h, if_neg (fun hne => hne h)]
      have heq := ih (f + 1) (ec + 1) bdAcc (by omega) (by omega)
      have h2 : f + 1 - (ec + 1) = f - ec := by omega
      rw [h2] at heq
      rw [heq, writeRank]
    · rw [if_neg h, if_pos h]
      have heq := ih (f + 1) 0 (boardSet bdAcc (make_square f rank) (bd (make_square f rank)))
        (by omega) (by omega)
      rw [Nat.sub_zero] at heq
      by_cases h2 : ec > 0
      · rw [if_pos h2]
        simp only [List.cons_append, List.nil_append, List.append_assoc]
        rw [parseRank_digit bdAcc rank (f - ec) ec _ (by omega) h2 (by omega)]
        have h3 : f - ec + ec = f := by omega
        rw [h3, parseRank_piece bdAcc rank f _ _ (by omega) h, heq, writeRank]
      · rw [if_neg h2]
        have h0 : ec = 0 := by omega
        subst h0
        simp only [List.nil_append, List.cons_append]
        rw [Nat.sub_zero, parseRank_piece bdAcc rank f _ _ (by omega) h, heq, writeRank]

theorem boardSet_get (bd : Board) (sq : Nat) (piece : Piece) (s : Nat) :
    boardSet bd sq piece s = if s = sq then piece else bd s := rfl

theorem writeRank_cons (bd : Board) (rank : Nat) (bdAcc : Board) (g : Nat) (rest : List Nat) :
    writeRank bd rank bdAcc (g :: rest)
      = writeRank bd rank
          (if bd (make_square g rank) ≠ Piece.Empty then
            boardSet bdAcc (make_square g rank) (bd (make_square g rank))
          else bdAcc)
          rest := rfl

theorem writeRank_untouched (bd : Board) (rank : Nat) :
    ∀ files bdAcc s, (∀ fl ∈ files, make_square fl rank ≠ s) →
      writeRank bd rank bdAcc files s = bdAcc s := by
  intro files
  induction files with
  | nil => intro bdAcc s _; rfl
  | cons g rest ih =>
    intro bdAcc s hne
    rw [writeRank_cons, ih _ s (fun fl hfl => hne fl (List.mem_cons_of_mem g hfl))]
    split_ifs with h
    · rw [boardSet_get, if_neg (fun he => hne g (List.mem_cons_self g rest) he.symm)]
    · rfl

theorem make_square_inj (a b rank : Nat) (ha : a < 8) (hb : b < 8) (hr : rank < 8)
    (h : make_square a rank = make_square b rank) : a = b := by
  rw [make_square, make_square, if_pos ⟨ha, hr⟩, if_pos ⟨hb, hr⟩] at h
  omega

theorem writeRank_get (bd : Board) (rank : Nat) (hrank : rank < 8) :
    ∀ files bdAcc fl, fl ∈ files → files.Nodup → (∀ x ∈ files, x < 8) →
      writeRank bd rank bdAcc files (make_square fl rank)
        = if bd (make_square fl rank) = Piece.Empty then bdAcc (make_square fl rank)
          else bd (make_square fl rank) := by
  intro files
  induction files with
  | nil => intro _ _ h; cases h
  | cons g rest ih =>
    intro bdAcc fl hmem hnd h8
    rw [List.nodup_cons] at hnd
    rw [writeRank_cons]
    rcases List.mem_cons.mp hmem with heq | hmem2
    · subst heq
      have hrest : ∀ x ∈ rest, make_square x rank ≠ make_square fl rank := by
        intro x hx he
        have hx8 : x = fl := make_square_inj x fl rank (h8 x (List.mem_cons_of_mem fl hx))
          (h8 fl (List.mem_cons_self fl rest)) hrank he
        subst hx8
        exact hnd.1 hx
      rw [writeRank_untouched bd rank rest _ _ hrest]
      by_cases h : bd (make_square fl rank) = Piece.Empty
      · rw [if_pos h, if_neg (fun hne => hne h)]
      · rw [if_neg h, if_pos h, boardSet_get, if_pos rfl]
    · have hgne : make_square g rank ≠ make_square fl rank := by
        intro he
        have hgf : g = fl := make_square_inj g fl rank (h8 g (List.mem_cons_self g rest))
          (h8 fl (List.mem_cons_of_mem g hmem2)) hrank he
        subst hgf
        exact hnd.1 hmem2
      rw [ih _ fl hmem2 hnd.2 (fun x hx => h8 x (List.mem_cons_of_mem g hx))]
      by_cases h2 : bd (make_square fl rank) = Piece.Empty
      · rw [if_pos h2, if_pos h2]
        split_ifs with h3
        · rw [boardSet_get, if_neg (fun he => hgne he.symm)]
        · rfl
      · rw [if_neg h2, if_neg h2]

theorem make_square_ne (fl r s : Nat) (hfl : fl < 8) (hr : r < 8)
    (h : s / 8 ≠ r ∨ 64 ≤ s) : make_square fl r ≠ s := by
  rw [make_square, if_pos ⟨hfl, hr⟩]
  omega

/-- The board accumulated by parsing the printed ranks in order: rank 7
first, rank 0 last (so rank 0's write is outermost). -/
def rankStack (bd b0 : Board) (ranklist : List Nat) : Board :=
  ranklist.foldr (fun r acc => writeRank bd r acc (List.range 8)) b0

theorem rankStack_cons (bd b0 : Board) (r : Nat) (rest : List Nat) :
    rankStack bd b0 (r :: rest) = writeRank bd r (rankStack bd b0 rest) (List.range 8) := rfl

theorem rankStack_untouched (bd : Board) :
    ∀ ranklist (b0 : Board) (s : Nat), (∀ r ∈ ranklist, r < 8) →
      (∀ r ∈ ranklist, s / 8 ≠ r ∨ 64 ≤ s) →
      rankStack bd b0 ranklist s = b0 s := by
  intro ranklist
  induction ranklist with
  | nil => intro b0 s _ _; rfl
  | cons r rest ih =>
    intro b0 s h8 hne
    rw [rankStack_cons,
      writeRank_untouched bd r (List.range 8) _ s
        (fun fl hfl => make_square_ne fl r s (List.mem_range.mp hfl)
          (h8 r (List.mem_cons_self r rest)) (hne r (List.mem_cons_self r rest)))]
    exact ih b0 s (fun x hx => h8 x (List.mem_cons_of_mem r hx))
      (fun x hx => hne x (List.mem_cons_of_mem r hx))

theorem rankStack_get (bd : Board) :
    ∀ ranklist (b0 : Board) (s : Nat), ranklist.Nodup → (∀ r ∈ ranklist, r < 8) →
      s < 64 → s / 8 ∈ ranklist →
      rankStack bd b0 ranklist s = if bd s = Piece.Empty then b0 s else bd s := by
  intro ranklist
  induction ranklist with
  | nil => intro _ _ _ _ _ h; cases h
  | cons r rest ih =>
    intro b0 s hnd h8 hs hmem
    rw [List.nodup_cons] at hnd
    rw [rankStack_cons]
    rcases List.mem_cons.mp hmem with heq | hmem2
    · have hsq : make_square (s % 8) r = s := by
        rw [make_square, if_pos ⟨Nat.mod_lt _ (by omega), h8 r (List.mem_cons_self r rest)⟩]
        omega
      rw [show (s : Nat) = make_square (s % 8) r from hsq.symm]
      rw [writeRank_get bd r (h8 r (List.mem_cons_self r rest)) (List.range 8) _ (s % 8)
        (List.mem_range.mpr (Nat.mod_lt _ (by omega))) (List.nodup_range 8)
        (fun x hx => List.mem_range.mp hx)]
      rw [hsq]
      rw [rankStack_untouched bd rest b0 s (fun x hx => h8 x (List.mem_cons_of_mem r hx))
        (fun x hx => Or.inl (fun he => hnd.1 (by
          have hxr : x = r := by omega
          rw [hxr] at hx
          exact hx)))]
    · have hne : s / 8 ≠ r := by
        intro he
        exact hnd.1 (by rw [← he]; exact hmem2)
      rw [writeRank_untouched bd r (List.range 8) _ s
        (fun fl hfl => make_square_ne fl r s (List.mem_range.mp hfl)
          (h8 r (List.mem_cons_self r rest)) (Or.inl hne))]
      exact ih b0 s hnd.2 (fun x hx => h8 x (List.mem_cons_of_mem r hx)) hs hmem2

theorem parseRanks_step (bd bdAcc : Board) (rank_index : Nat) (rest : List (List Char))
    (hle : rank_index ≤ 7) :
    parseRanks bdAcc rank_index (rankCharsAux bd (7 - rank_index) 0 (List.range 8) :: rest)
      = parseRanks (writeRank bd (7 - rank_index) bdAcc (List.range 8)) (rank_index + 1) rest := by
  rw [parseRanks, List.range_eq_range']
  have h := parseRank_roundtrip bd (7 - rank_index) 8 0 0 bdAcc (by omega) (by omega)
  rw [Nat.sub_self] at h
  rw [h]
  simp

theorem parse_piece_placement_roundtrip (bd : Board)
    (hb : ∀ s, 64 ≤ s → bd s = Piece.Empty) :
    parse_piece_placement (board_to_string bd) = Except.ok bd := by
  have hfree : ∀ rank, rank < 8 →
      ∀ c ∈ rankCharsAux bd rank 0 (List.range 8), (c = '/' : Bool) = false := by
    intro rank _ c hc
    exact decide_eq_false (rankCharsAux_chars bd rank (List.range 8) 0 (by simp) c hc).2
  have hsplit : splitPred (fun c => c = '/') (board_to_string bd)
      = [rankCharsAux bd 7 0 (List.range 8), rankCharsAux bd 6 0 (List.range 8),
         rankCharsAux bd 5 0 (List.range 8), rankCharsAux bd 4 0 (List.range 8),
         rankCharsAux bd 3 0 (List.range 8), rankCharsAux bd 2 0 (List.range 8),
         rankCharsAux bd 1 0 (List.range 8), rankCharsAux bd 0 0 (List.range 8)] := by
    rw [board_to_string]
    simp only [List.foldr_cons, List.foldr_nil, List.append_assoc, List.cons_append,
      List.nil_append]
    rw [splitPred_append_sep _ '/' (by decide) _ _ (hfree 7 (by omega)),
      splitPred_append_sep _ '/' (by decide) _ _ (hfree 6 (by omega)),
      splitPred_append_sep _ '/' (by decide) _ _ (hfree 5 (by omega)),
      splitPred_append_sep _ '/' (by decide) _ _ (hfree 4 (by omega)),
      splitPred_append_sep _ '/' (by decide) _ _ (hfree 3 (by omega)),
      splitPred_append_sep _ '/' (by decide) _ _ (hfree 2 (by omega)),
      splitPred_append_sep _ '/' (by decide) _ _ (hfree 1 (by omega)),
      splitPred_no_sep _ _ (hfree 0 (by omega))]
  rw [parse_piece_placement, hsplit, if_neg (by simp)]
  rw [show (7 : Nat) = 7 - 0 from rfl]
  rw [parseRanks_step bd Board.new 0 _ (by omega)]
  rw [show (6 : Nat) = 7 - 1 from rfl]
  rw [parseRanks_step bd _ 1 _ (by omega)]
  rw [show (5 : Nat) = 7 - 2 from rfl]
  rw [parseRanks_step bd _ 2 _ (by omega)]
  rw [show (4 : Nat) = 7 - 3 from rfl]
  rw [parseRanks_step bd _ 3 _ (by omega)]
  rw [show (3 : Nat) = 7 - 4 from rfl]
  rw [parseRanks_step bd _ 4 _ (by omega)]
  rw [show (2 : Nat) = 7 - 5 from rfl]
  rw [parseRanks_step bd _ 5 _ (by omega)]
  rw [show (1 : Nat) = 7 - 6 from rfl]
  rw [parseRanks_step bd _ 6 _ (by omega)]
  rw [show (0 : Nat) = 7 - 7 from rfl]
  rw [parseRanks_step bd _ 7 _ (by omega)]
  rw [parseRanks]
  congr 1
  funext s
  by_cases hs : s < 64
  · have hget := rankStack_get bd [0, 1, 2, 3, 4, 5, 6, 7] Board.new s (by decide)
      (by intro r hr; fin_cases hr <;> omega) hs
      (by
        have h8 : s / 8 < 8 := by omega
        interval_cases h : (s / 8) <;> simp)
    rw [rankStack] at hget
    simp only [List.foldr_cons, List.foldr_nil] at hget
    rw [hget]
    split_ifs with h
    · rw [h]
      rfl
    · rfl
  · have hun := rankStack_untouched bd [0, 1, 2, 3, 4, 5, 6, 7] Board.new s
      (by intro r hr; fin_cases hr <;> omega)
      (by intro r hr; right; omega)
    rw [rankStack] at hun
    simp only [List.foldr_cons, List.foldr_nil] at hun
    rw [hun, hb s (by omega)]
    rfl

theorem except_bind_ok {ε α β : Type} (a : α) (f : α → Except ε β) :
    Except.bind (Except.ok a) f = f a := rfl

theorem isDigit_not_ws (c : Char) (h : c.isDigit = true) : c.isWhitespace = false := by
  by_contra hws
  rw [Bool.not_eq_false, Char.isWhitespace] at hws
  simp only [Bool.or_eq_true, decide_eq_true_eq] at hws
  rcases hws with ((h1 | h1) | h1) | h1 <;> (subst h1; exact absurd h (by decide))

theorem natToString_not_ws (n : Nat) : ∀ c ∈ natToString n, c.isWhitespace = false := by
  intro c hc
  rw [natToString] at hc
  split_ifs at hc with h
  · rw [List.mem_singleton] at hc
    subst hc
    decide
  · have := natDigitsAux_all_digits 20 n
    rw [List.all_eq_true] at this
    exact isDigit_not_ws c (this c hc)

theorem natToString_ne_nil (n : Nat) : natToString n ≠ [] := by
  rw [natToString]
  split_ifs with h
  · simp
  · exact natDigitsAux_ne_nil 19 n h

theorem castling_roundtrip (ca : Nat) (hca : ca ≤ 15) :
    (if castlingToString ca = ['-'] then Except.ok 0 else parse_castling 0 (castlingToString ca))
      = Except.ok ca := by
  interval_cases ca <;> decide

theorem castlingToString_not_ws (ca : Nat) (hca : ca ≤ 15) :
    ∀ c ∈ castlingToString ca, c.isWhitespace = false := by
  interval_cases ca <;> decide

theorem castlingToString_ne_nil (ca : Nat) (hca : ca ≤ 15) : castlingToString ca ≠ [] := by
  interval_cases ca <;> decide

theorem ep_roundtrip (ep : Nat) (he : ep < 64) :
    (if epToString ep = ['-'] then Except.ok NO_EN_PASSANT_TARGET
     else parse_square (epToString ep)) = Except.ok ep := by
  interval_cases ep <;> decide

theorem epToString_not_ws (ep : Nat) (he : ep < 64) :
    ∀ c ∈ epToString ep, c.isWhitespace = false := by
  interval_cases ep <;> decide

theorem epToString_ne_nil (ep : Nat) (he : ep < 64) : epToString ep ≠ [] := by
  interval_cases ep <;> decide

theorem board_to_string_not_ws (bd : Board) :
    ∀ c ∈ board_to_string bd, c.isWhitespace = false := by
  intro c hc
  rw [board_to_string] at hc
  simp only [List.foldr_cons, List.foldr_nil, List.append_assoc, List.cons_append,
    List.nil_append, List.mem_append, List.mem_cons] at hc
  rcases hc with hc|hc|hc|hc|hc|hc|hc|hc|hc|hc|hc|hc|hc|hc|hc <;>
    first
    | (subst hc; decide)
    | exact (rankCharsAux_chars bd _ (List.range 8) 0 (by simp) c hc).1

theorem board_to_string_ne_nil (bd : Board) : board_to_string bd ≠ [] := by
  rw [board_to_string]
  simp only [List.foldr_cons, List.foldr_nil, List.append_assoc, List.cons_append,
    List.nil_append]
  intro h
  exact rankCharsAux_ne_nil bd 7 (List.range 8) 0 (by simp) (by
    cases hx : rankCharsAux bd 7 0 (List.range 8)
    · rfl
    · rw [hx] at h
      cases h)

theorem parse_position_eq_parts (fen p0 p1 p2 p3 p4 p5 : List Char)
    (h : split_whitespace fen = [p0, p1, p2, p3, p4, p5]) :
    parse_position fen = parse_position_parts p0 p1 p2 p3 p4 p5 := by
  unfold parse_position
  rw [h]

/-- **C7** Confirmed: printing any representable Position (board empty
outside the 64 squares, castling mask within its four bits, en-passant
target a real square or the `A1` sentinel, clocks within `u8` / `u16`
range) and parsing the result returns exactly the original Position. -/
theorem parse_print_roundtrip (p : Position)
    (hb : ∀ s, 64 ≤ s → p.board s = Piece.Empty)
    (hca : p.turn.castling ≤ 15)
    (he : p.turn.en_passant < 64)
    (hh : p.turn.halfmove ≤ 255)
    (hf : p.turn.fullmove ≤ 65535) :
    parse_position (position_to_string p) = Except.ok p := by
  obtain ⟨bd, turn⟩ := p
  obtain ⟨ac, ca, ep, hm, fm⟩ := turn
  simp only at hb hca he hh hf
  rw [position_to_string]
  dsimp only
  have hcolor_free : ∀ c ∈ (if ac = Color.White then ['w'] else ['b']),
      c.isWhitespace = false := by
    intro c hc
    cases ac
    · rw [if_pos rfl, List.mem_singleton] at hc
      subst hc
      decide
    · rw [if_neg (by decide), List.mem_singleton] at hc
      subst hc
      decide
  have hcolor_ne : (if ac = Color.White then ['w'] else ['b']) ≠ [] := by
    cases ac <;> simp
  have hsw : split_whitespace (board_to_string bd
        ++ ' ' :: (if ac = Color.White then ['w'] else ['b'])
        ++ ' ' :: castlingToString ca
        ++ ' ' :: epToString ep
        ++ ' ' :: natToString hm
        ++ ' ' :: natToString fm)
      = [board_to_string bd, (if ac = Color.White then ['w'] else ['b']),
         castlingToString ca, epToString ep, natToString hm, natToString fm] := by
    rw [split_whitespace]
    simp only [List.append_assoc, List.cons_append]
    rw [splitPred_append_sep _ ' ' (by decide) _ _ (board_to_string_not_ws bd),
      splitPred_append_sep _ ' ' (by decide) _ _ hcolor_free,
      splitPred_append_sep _ ' ' (by decide) _ _ (castlingToString_not_ws ca hca),
      splitPred_append_sep _ ' ' (by decide) _ _ (epToString_not_ws ep he),
      splitPred_append_sep _ ' ' (by decide) _ _ (natToString_not_ws hm),
      splitPred_no_sep _ _ (natToString_not_ws fm)]
    rw [List.filter_eq_self.mpr]
    intro a ha
    simp only [List.mem_cons, List.mem_singleton] at ha
    rcases ha with rfl | rfl | rfl | rfl | rfl | rfl | h
    · exact decide_eq_true (board_to_string_ne_nil bd)
    · exact decide_eq_true hcolor_ne
    · exact decide_eq_true (castlingToString_ne_nil ca hca)
    · exact decide_eq_true (epToString_ne_nil ep he)
    · exact decide_eq_true (natToString_ne_nil hm)
    · exact decide_eq_true (natToString_ne_nil fm)
    · cases h
  rw [parse_position_eq_parts _ _ _ _ _ _ _ hsw, parse_position_parts,
    parse_piece_placement_roundtrip bd hb, except_bind_ok]
  have hcolor : (if (if ac = Color.White then ['w'] else ['b']) = ['w'] then Except.ok Color.White
      else if (if ac = Color.White then ['w'] else ['b']) = ['b'] then Except.ok Color.Black
      else Except.error ("Invalid active color")) = Except.ok ac := by
    cases ac <;> decide
  rw [hcolor, except_bind_ok, castling_roundtrip ca hca, except_bind_ok,
    ep_roundtrip ep he, except_bind_ok]
  have hhm : (match parse_uint 255 (natToString hm) with
      | Except.error _ => Except.error ("Invalid halfmove clock")
      | Except.ok v => Except.ok v) = Except.ok hm := by
    rw [parse_uint_natToString 255 hm hh (by omega)]
  have hfm : (match parse_uint 65535 (natToString fm) with
      | Except.error _ => Except.error ("Invalid fullmove number")
      | Except.ok v => Except.ok v) = Except.ok fm := by
    rw [parse_uint_natToString 65535 fm hf (by omega)]
  rw [hhm, except_bind_ok, hfm, except_bind_ok]

theorem parse_print_roundtrip_witness :
    parse_position (position_to_string { board := INITIAL_BOARD, turn := Turn.initial })
      = Except.ok { board := INITIAL_BOARD, turn := Turn.initial } :=
  parse_print_roundtrip { board := INITIAL_BOARD, turn := Turn.initial }
    (fun s hs => List.getD_eq_default _ _
      (le_trans (show INITIAL_LIST.length ≤ 64 by decide) hs))
    (by decide) (by decide) (by decide) (by decide)
